import Mathlib

/-!
Verification development for the git-generator repository.

The Go sources are shallowly embedded: Go strings are modelled as `List Char`
(so that every string operation is a transparent, executable list function),
Go non-negative ints as `Nat` (all modelled quantities are sizes, counts and
priorities, which the sources keep non-negative), and Go maps as association
lists iterated in insertion order (Go map iteration order is unspecified; every
theorem below about a map-iterating function is either order-independent or
evaluated at inputs where the result does not depend on the order).
-/

/-- Go `string`, modelled as its list of characters. -/
abbrev Str := List Char

/-- Coerce a Lean string literal to the `Str` model. -/
def str (s : String) : Str := s.toList

/-- Go `strings.HasPrefix`. -/
def strStarts (s pre : Str) : Bool := pre.isPrefixOf s

/-- Go `strings.HasSuffix`. -/
def strEnds (s suf : Str) : Bool := suf.isSuffixOf s

/-- Go `strings.Contains` (substring containment). -/
def strHasSub (s sub : Str) : Bool :=
  match s with
  | [] => sub.isEmpty
  | _ :: tail => sub.isPrefixOf s || strHasSub tail sub

/-- Go `strings.TrimPrefix`. -/
def strDropPre (pre s : Str) : Str := if pre.isPrefixOf s then s.drop pre.length else s

/-- Go `strings.TrimSuffix`. -/
def strDropSuf (suf s : Str) : Str := if suf.isSuffixOf s then s.take (s.length - suf.length) else s

/-- Whitespace recognised by Go's `unicode.IsSpace` (ASCII range; the sources
only ever split ASCII text). -/
def isSpaceGo (c : Char) : Bool :=
  c = ' ' || c = '\t' || c = '\n' || c = '\x0b' || c = '\x0c' || c = '\r'

/-- Go `strings.TrimSpace` (ASCII whitespace). -/
def strTrimSpace (s : Str) : Str :=
  ((s.dropWhile isSpaceGo).reverse.dropWhile isSpaceGo).reverse

/-- Worker for `strFields`: input characters, current (reversed) word. -/
def fieldsLoop : Str → Str → List Str
  | [], acc => if acc = [] then [] else [acc.reverse]
  | c :: cs, acc =>
    if isSpaceGo c then
      if acc = [] then fieldsLoop cs [] else acc.reverse :: fieldsLoop cs []
    else fieldsLoop cs (c :: acc)

/-- Go `strings.Fields`: split around runs of whitespace. -/
def strFields (s : Str) : List Str := fieldsLoop s []

/-- Split a character list at the first occurrence of `sep`, Go
`strings.SplitN(s, sep, 2)` for a single-character separator that is known to
occur (returns `none` when it does not). -/
def splitOnce (sep : Char) : Str → Option (Str × Str)
  | [] => none
  | c :: cs =>
    if c = sep then some ([], cs)
    else match splitOnce sep cs with
      | none => none
      | some (a, b) => some (c :: a, b)

/-- Go `strings.Trim(s, cutset)` for a cutset given as a character list. -/
def strTrimSet (cut : List Char) (s : Str) : Str :=
  ((s.dropWhile (cut.contains ·)).reverse.dropWhile (cut.contains ·)).reverse

/-- Fuelled worker for `strReplaceAll`; the fuel (an upper bound on the number
of steps, each of which consumes at least one character) keeps the recursion
structural. -/
def strReplaceAllF (pat rep : Str) : Nat → Str → Str
  | 0, s => s
  | _ + 1, [] => []
  | fuel + 1, c :: cs =>
    if pat.isPrefixOf (c :: cs) ∧ pat ≠ [] then
      rep ++ strReplaceAllF pat rep fuel ((c :: cs).drop pat.length)
    else
      c :: strReplaceAllF pat rep fuel cs

/-- Go `strings.ReplaceAll(s, pat, rep)` for a non-empty pattern. -/
def strReplaceAll (pat rep s : Str) : Str := strReplaceAllF pat rep s.length s

/-- Split a character list on the newline character: Go
`strings.Split(s, "\n")`. -/
def splitOnNl : Str → List Str
  | [] => [[]]
  | c :: cs =>
    if c = '\n' then [] :: splitOnNl cs
    else
      match splitOnNl cs with
      | [] => [[c]]
      | l :: ls => (c :: l) :: ls

/-- The lines delivered by Go's `bufio.Scanner` with the default `ScanLines`
split function on `\n`-separated text (a trailing final newline yields no extra
empty line; `\r\n` endings are not modelled, all modelled inputs use `\n`). -/
def goScanLines (s : Str) : List Str :=
  let ls := splitOnNl s
  if ls.getLast? = some [] then ls.dropLast else ls

/-- Go `strings.ToLower` (ASCII; the classified paths are ASCII). -/
def strLower (s : Str) : Str := s.map Char.toLower

/-- Decimal digit test, Go regexp `\d` / `strconv` digits (code points 48–57,
i.e. `'0' ≤ c ≤ '9'`). -/
def isDigitGo (c : Char) : Bool := 48 ≤ c.toNat && c.toNat ≤ 57

/-- ASCII letter test, Go regexp `[a-zA-Z]` (code points 97–122 and 65–90). -/
def isAlphaGo (c : Char) : Bool :=
  (97 ≤ c.toNat && c.toNat ≤ 122) || (65 ≤ c.toNat && c.toNat ≤ 90)

/-- Numeric value of a string of decimal digits (most significant first). -/
def digitsVal (s : Str) : Nat := s.foldl (fun a c => 10 * a + (c.toNat - 48)) 0

/-- Go `strconv.Atoi` on a non-empty all-digit string: the numeric value when
it fits in a signed 64-bit int, an error (`none`) otherwise. -/
def goAtoiDigits (s : Str) : Option Nat :=
  if digitsVal s < 2 ^ 63 then some (digitsVal s) else none

/-- Decimal digits of `n`, least significant first, with structural fuel
(`fuel ≥ n` suffices). -/
def natDigitsRev : Nat → Nat → List Nat
  | 0, _ => []
  | fuel + 1, n => if n = 0 then [] else n % 10 :: natDigitsRev fuel (n / 10)

/-- Decimal rendering of a natural number, Go `fmt.Sprintf("%d", n)` for
non-negative `n`. -/
def natToStr (n : Nat) : Str :=
  if n = 0 then ['0']
  else ((natDigitsRev n n).map (fun d => Char.ofNat (48 + d))).reverse

/- ===================== pkg/types: data model ===================== -/

/-- `types.FileChange` (pkg/types): one changed file of a diff. -/
structure FileChange where
  path : Str := []
  oldPath : Str := []
  changeType : Str := []
  linesAdded : Nat := 0
  linesDeleted : Nat := 0
  content : Str := []
  language : Str := []
deriving Repr, DecidableEq

/-- `types.ChangeType` constants. -/
def ctAdded : Str := str "added"
def ctModified : Str := str "modified"
def ctDeleted : Str := str "deleted"
def ctRenamed : Str := str "renamed"

/-- `types.DiffSummary` (timestamp and redundant language maps omitted:
no claim mentions them). -/
structure DiffSummary where
  files : List FileChange
  totalAdded : Nat := 0
  totalDeleted : Nat := 0
  totalFiles : Nat := 0
deriving Repr, DecidableEq

/- ===================== internal/diff: Processor ===================== -/

/-- `diff.Processor`: configured limits. `NewProcessor` (below) only ever
produces positive limits, stored as `Nat`. -/
structure Processor where
  maxChunkSize : Nat
  maxFiles : Nat
deriving Repr, DecidableEq

/-- `diff.NewProcessor`: non-positive arguments fall back to the defaults
4000 / 20. Arguments are Go `int`, modelled as `Int`. -/
def newProcessor (maxChunkSize maxFiles : Int) : Processor :=
  { maxChunkSize := if maxChunkSize ≤ 0 then 4000 else maxChunkSize.toNat
    maxFiles := if maxFiles ≤ 0 then 20 else maxFiles.toNat }

/-- `diff.Processor.getChangeTypePriority`. -/
def getChangeTypePriority (changeType : Str) : Nat :=
  if changeType = ctAdded then 4
  else if changeType = ctDeleted then 3
  else if changeType = ctRenamed then 2
  else if changeType = ctModified then 1
  else 0

/-- `diff.Processor.getFileImportance`: static path classification, checked in
source order. -/
def getFileImportance (filePath : Str) : Nat :=
  let path := strLower filePath
  if strHasSub path (str "package.json") || strHasSub path (str "go.mod") ||
     strHasSub path (str "requirements.txt") || strHasSub path (str "cargo.toml") ||
     strHasSub path (str "pom.xml") || strHasSub path (str "build.gradle") then 9
  else if strHasSub path (str "config") || strHasSub path (str ".env") ||
     strEnds path (str ".json") || strEnds path (str ".yaml") ||
     strEnds path (str ".yml") || strEnds path (str ".toml") then 8
  else if strEnds path (str ".md") || strEnds path (str ".rst") ||
     strHasSub path (str "readme") || strHasSub path (str "doc") then 7
  else if strHasSub path (str "test") || strHasSub path (str "spec") ||
     strEnds path (str "_test.go") || strEnds path (str ".test.js") then 5
  else if strEnds path (str ".go") || strEnds path (str ".js") ||
     strEnds path (str ".ts") || strEnds path (str ".py") ||
     strEnds path (str ".java") || strEnds path (str ".cpp") ||
     strEnds path (str ".c") || strEnds path (str ".rs") then 6
  else if strEnds path (str ".css") || strEnds path (str ".scss") ||
     strEnds path (str ".html") || strEnds path (str ".vue") ||
     strEnds path (str ".jsx") || strEnds path (str ".tsx") then 4
  else 3

/-- The comparison closure passed to `sort.Slice` in
`diff.Processor.prioritizeFiles`: change-type priority descending, then file
importance descending, then total line delta ascending. -/
def prioritizeLess (fi fj : FileChange) : Bool :=
  let pI := getChangeTypePriority fi.changeType
  let pJ := getChangeTypePriority fj.changeType
  if pI ≠ pJ then pJ < pI
  else
    let iI := getFileImportance fi.path
    let iJ := getFileImportance fj.path
    if iI ≠ iJ then iJ < iI
    else fi.linesAdded + fi.linesDeleted < fj.linesAdded + fj.linesDeleted

/-- Insert `x` into `l` before the first element `y` with `le x y`. -/
def insertLe {α : Type} (le : α → α → Bool) (x : α) : List α → List α
  | [] => [x]
  | y :: ys => if le x y then x :: y :: ys else y :: insertLe le x ys

/-- Insertion sort for a boolean comparison. -/
def insertionSortLe {α : Type} (le : α → α → Bool) : List α → List α
  | [] => []
  | x :: xs => insertLe le x (insertionSortLe le xs)

/-- `diff.Processor.prioritizeFiles`. Go's `sort.Slice` is an unstable
comparison sort; the embedding fixes one sorted permutation (insertion sort on
the complement of the strict comparator). Every theorem below uses only that
the result is a permutation of the input that is sorted for the comparator,
which `sort.Slice` guarantees. -/
def prioritizeFiles (files : List FileChange) : List FileChange :=
  insertionSortLe (fun a b => !prioritizeLess b a) files

/-- `diff.DiffChunk` (the generated human-readable description is omitted: it
is assembled by iterating Go maps in unspecified order, and no claim mentions
it). -/
structure DiffChunk where
  files : List FileChange
  size : Nat
deriving Repr, DecidableEq

/-- The loop of `diff.Processor.createChunks`: remaining files, current chunk
files, current size. -/
def createChunksLoop (maxChunkSize : Nat) :
    List FileChange → List FileChange → Nat → List DiffChunk
  | [], cur, curSize => if cur = [] then [] else [⟨cur, curSize⟩]
  | f :: fs, cur, curSize =>
    if maxChunkSize < curSize + f.content.length ∧ cur ≠ [] then
      ⟨cur, curSize⟩ :: createChunksLoop maxChunkSize fs [f] f.content.length
    else
      createChunksLoop maxChunkSize fs (cur ++ [f]) (curSize + f.content.length)

/-- `diff.Processor.createChunks`. -/
def createChunks (p : Processor) (files : List FileChange) : List DiffChunk :=
  createChunksLoop p.maxChunkSize files [] 0

/-- The truncated, prioritized file list computed at the top of
`diff.Processor.ProcessDiff` (sort, then cut off at `maxFiles`). -/
def processedFiles (p : Processor) (summary : DiffSummary) : List FileChange :=
  (prioritizeFiles summary.files).take p.maxFiles

/-- `diff.ProcessedDiff` (free-text summary and language histogram omitted:
assembled from Go maps in unspecified order, not mentioned by any claim). -/
structure ProcessedDiff where
  chunks : List DiffChunk
  totalFiles : Nat
  totalAdded : Nat
  totalDeleted : Nat
deriving Repr, DecidableEq

/-- `diff.Processor.ProcessDiff` (the `nil`-summary error path is outside the
model: a `DiffSummary` value always exists here). -/
def processDiff (p : Processor) (summary : DiffSummary) : ProcessedDiff :=
  let sortedFiles := processedFiles p summary
  { chunks := createChunks p sortedFiles
    totalFiles := sortedFiles.length
    totalAdded := summary.totalAdded
    totalDeleted := summary.totalDeleted }

/-- Sum of the `content` lengths of a file list (the quantity `createChunks`
accumulates in `currentSize`). -/
def sumLen (files : List FileChange) : Nat := (files.map (·.content.length)).sum

/- ===================== internal/git: diff parsing ===================== -/

/-- The extension→language table of `git.Service.detectLanguage`. -/
def languageTable : List (Str × Str) :=
  [(str ".go", str "Go"), (str ".js", str "JavaScript"), (str ".ts", str "TypeScript"),
   (str ".py", str "Python"), (str ".java", str "Java"), (str ".cpp", str "C++"),
   (str ".c", str "C"), (str ".cs", str "C#"), (str ".php", str "PHP"),
   (str ".rb", str "Ruby"), (str ".rs", str "Rust"), (str ".sh", str "Shell"),
   (str ".sql", str "SQL"), (str ".html", str "HTML"), (str ".css", str "CSS"),
   (str ".scss", str "SCSS"), (str ".sass", str "Sass"), (str ".json", str "JSON"),
   (str ".xml", str "XML"), (str ".yaml", str "YAML"), (str ".yml", str "YAML"),
   (str ".md", str "Markdown"), (str ".txt", str "Text")]

/-- Go `path/filepath.Ext`: the suffix from the final dot of the final path
element ('' when the last element has no dot). -/
def filepathExt (p : Str) : Str :=
  let lastComp := (p.reverse.takeWhile (fun c => c ≠ '/')).reverse
  if lastComp.contains '.' then
    '.' :: (lastComp.reverse.takeWhile (fun c => c ≠ '.')).reverse
  else []

/-- `git.Service.detectLanguage`. -/
def detectLanguage (filePath : Str) : Str :=
  let ext := strLower (filepathExt filePath)
  match languageTable.find? (fun e => e.1 = ext) with
  | some e => e.2
  | none => str "Unknown"

/-- `git.Service.parseHunkCounts`: count `+`/`-` lines, excluding the
`+++`/`---` pseudo-lines. -/
def parseHunkCounts (hunkLines : List Str) : Nat × Nat :=
  hunkLines.foldl
    (fun (acc : Nat × Nat) line =>
      if strStarts line (str "+") ∧ ¬ strStarts line (str "+++") then (acc.1 + 1, acc.2)
      else if strStarts line (str "-") ∧ ¬ strStarts line (str "---") then (acc.1, acc.2 + 1)
      else acc)
    (0, 0)

/-- The header-scanning loop of `git.Service.parseFileSection`, one line at a
time; stops at the first hunk header (`@@`), where it fills in the line counts
from the remaining lines. -/
def parseSectionLoop : List Str → FileChange → FileChange
  | [], fc => fc
  | line :: rest, fc =>
    if strStarts line (str "diff --git") then
      let parts := strFields line
      if 4 ≤ parts.length then
        let fc := { fc with path := strDropPre (str "b/") (parts.getD 3 []) }
        if parts.getD 2 [] ≠ parts.getD 3 [] then
          parseSectionLoop rest
            { fc with oldPath := strDropPre (str "a/") (parts.getD 2 []), changeType := ctRenamed }
        else parseSectionLoop rest fc
      else parseSectionLoop rest fc
    else if strStarts line (str "new file mode") then
      parseSectionLoop rest { fc with changeType := ctAdded }
    else if strStarts line (str "deleted file mode") then
      parseSectionLoop rest { fc with changeType := ctDeleted }
    else if strStarts line (str "@@") then
      let counts := parseHunkCounts (line :: rest)
      { fc with linesAdded := counts.1, linesDeleted := counts.2 }
    else parseSectionLoop rest fc

/-- `git.Service.parseFileSection`. -/
def parseFileSection (section' : Str) : Option FileChange :=
  let lines := splitOnNl section'
  if lines.length < 2 then none
  else
    let fc := parseSectionLoop lines { content := section' }
    let fc := if fc.changeType = [] then { fc with changeType := ctModified } else fc
    some { fc with language := detectLanguage fc.path }

/-- The accumulation loop of `git.Service.splitDiffByFile`: remaining lines and
the current section being assembled. -/
def splitDiffLoop : List Str → Str → List Str
  | [], cur => if cur = [] then [] else [cur]
  | line :: rest, cur =>
    if strStarts line (str "diff --git") ∧ cur ≠ [] then
      cur :: splitDiffLoop rest (line ++ ['\n'])
    else splitDiffLoop rest (cur ++ line ++ ['\n'])

/-- `git.Service.splitDiffByFile`. -/
def splitDiffByFile (diffOutput : Str) : List Str :=
  splitDiffLoop (goScanLines diffOutput) []

/-- `git.Service.parseDiff`: parse every section, silently skipping sections
that fail to parse, and sum the per-file counts. -/
def parseDiff (diffOutput : Str) : DiffSummary :=
  let files := (splitDiffByFile diffOutput).filterMap parseFileSection
  { files := files
    totalAdded := (files.map (·.linesAdded)).sum
    totalDeleted := (files.map (·.linesDeleted)).sum
    totalFiles := files.length }

/- ===================== internal/version: semantic versions ===================== -/

/-- `types.SemanticVersion`. The numeric fields are Go `int`s that the engine
only ever populates with non-negative values (parsing of `\d+` digit runs),
modelled as `Nat`. -/
structure SemanticVersion where
  major : Nat := 0
  minor : Nat := 0
  patch : Nat := 0
  preRelease : Str := []
  preNumber : Nat := 0
  raw : Str := []
deriving Repr, DecidableEq

/-- `types.PreReleaseType` constants. -/
def preAlpha : Str := str "alpha"
def preBeta : Str := str "beta"
def preRC : Str := str "rc"

/-- `types.SemanticVersion.String`: `MAJOR.MINOR.PATCH`, then `-pre` when a
pre-release is set, then `.N` when the pre-release number is positive. -/
def verString (v : SemanticVersion) : Str :=
  let base := natToStr v.major ++ ['.'] ++ natToStr v.minor ++ ['.'] ++ natToStr v.patch
  if v.preRelease ≠ [] then
    if 0 < v.preNumber then base ++ ['-'] ++ v.preRelease ++ ['.'] ++ natToStr v.preNumber
    else base ++ ['-'] ++ v.preRelease
  else base

/-- The maximal-munch `\d+` step (non-empty digit run, then the rest). -/
def takeNum (s : Str) : Option (Str × Str) :=
  let d := s.takeWhile isDigitGo
  if d = [] then none else some (d, s.drop d.length)

/-- The maximal-munch `[a-zA-Z]+` step (non-empty letter run, then the rest). -/
def takeAlpha (s : Str) : Option (Str × Str) :=
  let a := s.takeWhile isAlphaGo
  if a = [] then none else some (a, s.drop a.length)

/-- `version.Service.ParseVersion`: strip a leading `v`, then match
`^(\d+)\.(\d+)\.(\d+)(?:-([a-zA-Z]+)(?:\.(\d+))?)?$`. The regex is transcribed
as a direct maximal-munch parse: each group is a maximal run (the following
separator is outside the character class, so regex backtracking can never
produce a different split). `strconv.Atoi` overflow on major/minor/patch is a
parse error; overflow on the pre-release number leaves `preNumber` at 0 (the
Go code ignores that error). -/
def parseVersion (versionStr : Str) : Option SemanticVersion :=
  let s := strDropPre (str "v") versionStr
  match takeNum s with
  | none => none
  | some (d1, r1) =>
    match r1 with
    | '.' :: r2 =>
      match takeNum r2 with
      | none => none
      | some (d2, r3) =>
        match r3 with
        | '.' :: r4 =>
          match takeNum r4 with
          | none => none
          | some (d3, r5) =>
            match goAtoiDigits d1, goAtoiDigits d2, goAtoiDigits d3 with
            | some major, some minor, some patch =>
              match r5 with
              | [] => some { major, minor, patch, raw := s }
              | '-' :: r6 =>
                match takeAlpha r6 with
                | none => none
                | some (pre, r7) =>
                  match r7 with
                  | [] => some { major, minor, patch, preRelease := pre, raw := s }
                  | '.' :: r8 =>
                    match takeNum r8 with
                    | none => none
                    | some (d4, r9) =>
                      if r9 ≠ [] then none
                      else some { major, minor, patch, preRelease := pre,
                                  preNumber := (goAtoiDigits d4).getD 0, raw := s }
                  | _ => none
              | _ => none
            | _, _, _ => none
        | _ => none
    | _ => none

/-- The pre-release rank lookup in `version.Service.isVersionNewer`
(`alpha` 1, `beta` 2, `rc` 3; a Go map lookup of any other key yields the zero
value 0). -/
def preRank (p : Str) : Nat :=
  if p = preAlpha then 1 else if p = preBeta then 2 else if p = preRC then 3 else 0

/-- `version.Service.isVersionNewer v1 v2`: is `v1` strictly newer than `v2`. -/
def isVersionNewer (v1 v2 : SemanticVersion) : Bool :=
  if v1.major ≠ v2.major then v2.major < v1.major
  else if v1.minor ≠ v2.minor then v2.minor < v1.minor
  else if v1.patch ≠ v2.patch then v2.patch < v1.patch
  else if v1.preRelease = [] ∧ v2.preRelease ≠ [] then true
  else if v1.preRelease ≠ [] ∧ v2.preRelease = [] then false
  else if v1.preRelease ≠ [] ∧ v2.preRelease ≠ [] then
    if v1.preRelease ≠ v2.preRelease then preRank v2.preRelease < preRank v1.preRelease
    else v2.preNumber < v1.preNumber
  else false

/-- A valid semantic-version value in the sense of the specification: all
numeric components fit a signed 64-bit int, and the pre-release tag is either
absent (with no pre-release number) or one of `alpha`/`beta`/`rc`. -/
def ValidVersion (v : SemanticVersion) : Prop :=
  v.major < 2 ^ 63 ∧ v.minor < 2 ^ 63 ∧ v.patch < 2 ^ 63 ∧ v.preNumber < 2 ^ 63 ∧
  ((v.preRelease = [] ∧ v.preNumber = 0) ∨
   v.preRelease = preAlpha ∨ v.preRelease = preBeta ∨ v.preRelease = preRC)

/-- The five observable components of a semantic version (everything except
the incidental `raw` text). -/
def verTuple (v : SemanticVersion) : Nat × Nat × Nat × Str × Nat :=
  (v.major, v.minor, v.patch, v.preRelease, v.preNumber)

/- ===================== internal scope detector ===================== -/

/-- Does `rest` begin with a non-empty run of non-`/` characters followed by
`/` (the regex fragment `([^/]+)/`)? Returns the run (the `$1` capture). -/
def dirCapture (rest : Str) : Option Str :=
  let seg := rest.takeWhile (fun c => c ≠ '/')
  if seg ≠ [] ∧ (rest.drop seg.length).head? = some '/' then some seg else none

/-- Does `p` start with some element of `pres` (used for anchored alternations
such as `^(src/|app/)?components?/`, expanded to the finite list of literal
prefixes the regex denotes)? -/
def startsAny (p : Str) (pres : List Str) : Bool := pres.any (fun pre => strStarts p pre)

/-- Does `p` end with `.` followed by some element of `alts` (the regex shape
`\.(a|b|…)$`)? -/
def endsDotAny (p : Str) (alts : List Str) : Bool :=
  alts.any (fun a => strEnds p ('.' :: a))

/-- A scope-detection rule of the `scope` package: the regex source text is
kept for reference, and its matcher and `$1` capture are transcribed as
executable functions (every default pattern compiles, so the compile-error
skip path of the Go code is dead). `numGroups` is the number of capture groups
of the pattern (Go's `len(matches) > 1`). -/
structure ScopeRule where
  pattern : Str
  matchesP : Str → Bool
  cap1 : Str → Str := fun _ => []
  numGroups : Nat := 0
  scope : Str
  priority : Nat

/-- `scope.getDefaultScopeRules`, in declaration order (which is the order the
rules take effect in a detector built by `scope.NewDetector`, since that
constructor does not sort them). -/
def defaultScopeRules : List ScopeRule :=
  [ { pattern := str "^cmd/([^/]+)/",
      matchesP := fun p => strStarts p (str "cmd/") && (dirCapture (p.drop 4)).isSome,
      cap1 := fun p => (dirCapture (p.drop 4)).getD [],
      numGroups := 1, scope := str "cmd", priority := 95 },
    { pattern := str "^internal/([^/]+)/",
      matchesP := fun p => strStarts p (str "internal/") && (dirCapture (p.drop 9)).isSome,
      cap1 := fun p => (dirCapture (p.drop 9)).getD [],
      numGroups := 1, scope := str "$1", priority := 90 },
    { pattern := str "^pkg/([^/]+)/",
      matchesP := fun p => strStarts p (str "pkg/") && (dirCapture (p.drop 4)).isSome,
      cap1 := fun p => (dirCapture (p.drop 4)).getD [],
      numGroups := 1, scope := str "$1", priority := 90 },
    { pattern := str "\\.(js|jsx|ts|tsx|vue|svelte|html|css|scss|sass|less)$",
      matchesP := fun p => endsDotAny p
        [str "js", str "jsx", str "ts", str "tsx", str "vue", str "svelte", str "html",
         str "css", str "scss", str "sass", str "less"],
      numGroups := 1, scope := str "ui", priority := 80 },
    { pattern := str "^(src/|app/)?components?/",
      matchesP := fun p => startsAny p
        [str "components/", str "component/", str "src/components/", str "src/component/",
         str "app/components/", str "app/component/"],
      numGroups := 1, scope := str "ui", priority := 85 },
    { pattern := str "^(src/|app/)?pages?/",
      matchesP := fun p => startsAny p
        [str "pages/", str "page/", str "src/pages/", str "src/page/",
         str "app/pages/", str "app/page/"],
      numGroups := 1, scope := str "ui", priority := 85 },
    { pattern := str "^(src/|app/)?(api|routes?|controllers?|handlers?)/",
      matchesP := fun p =>
        (List.product [[], str "src/", str "app/"]
          [str "api/", str "route/", str "routes/", str "controller/", str "controllers/",
           str "handler/", str "handlers/"]).any
          (fun pre => strStarts p (pre.1 ++ pre.2)),
      numGroups := 2, scope := str "api", priority := 90 },
    { pattern := str "^(src/|app/)?middleware/",
      matchesP := fun p => startsAny p
        [str "middleware/", str "src/middleware/", str "app/middleware/"],
      numGroups := 1, scope := str "api", priority := 85 },
    { pattern := str "^(src/|app/)?(models?|entities?|schemas?)/",
      matchesP := fun p =>
        (List.product [[], str "src/", str "app/"]
          [str "model/", str "models/", str "entitie/", str "entities/",
           str "schema/", str "schemas/"]).any
          (fun pre => strStarts p (pre.1 ++ pre.2)),
      numGroups := 2, scope := str "db", priority := 90 },
    { pattern := str "^(src/|app/)?(migrations?|seeds?)/",
      matchesP := fun p =>
        (List.product [[], str "src/", str "app/"]
          [str "migration/", str "migrations/", str "seed/", str "seeds/"]).any
          (fun pre => strStarts p (pre.1 ++ pre.2)),
      numGroups := 2, scope := str "db", priority := 95 },
    { pattern := str "\\.(sql|migration)$",
      matchesP := fun p => endsDotAny p [str "sql", str "migration"],
      numGroups := 1, scope := str "db", priority := 90 },
    { pattern := str "^(src/|app/)?(auth|security)/",
      matchesP := fun p =>
        (List.product [[], str "src/", str "app/"] [str "auth/", str "security/"]).any
          (fun pre => strStarts p (pre.1 ++ pre.2)),
      numGroups := 2, scope := str "auth", priority := 90 },
    { pattern := str "^(config|configs?)/",
      matchesP := fun p => startsAny p [str "config/", str "configs/"],
      numGroups := 1, scope := str "config", priority := 95 },
    { pattern := str "\\.(env|config|conf|ini|yaml|yml|toml|json)$",
      matchesP := fun p => endsDotAny p
        [str "env", str "config", str "conf", str "ini", str "yaml", str "yml",
         str "toml", str "json"],
      numGroups := 1, scope := str "config", priority := 85 },
    { pattern := str "^\\.env",
      matchesP := fun p => strStarts p (str ".env"),
      scope := str "config", priority := 90 },
    { pattern := str "^(test|tests?|spec|specs?)/",
      matchesP := fun p => startsAny p [str "test/", str "tests/", str "spec/", str "specs/"],
      numGroups := 1, scope := str "test", priority := 95 },
    { pattern := str "\\.(test|spec)\\.(js|jsx|ts|tsx|go|py|rb|java|php)$",
      matchesP := fun p =>
        (List.product [str "test", str "spec"]
          [str "js", str "jsx", str "ts", str "tsx", str "go", str "py", str "rb",
           str "java", str "php"]).any
          (fun a => strEnds p ('.' :: a.1 ++ '.' :: a.2)),
      numGroups := 2, scope := str "test", priority := 90 },
    { pattern := str "_test\\.(go|rs)$",
      matchesP := fun p => strEnds p (str "_test.go") || strEnds p (str "_test.rs"),
      numGroups := 1, scope := str "test", priority := 90 },
    { pattern := str "^(docs?|documentation)/",
      matchesP := fun p => startsAny p [str "doc/", str "docs/", str "documentation/"],
      numGroups := 1, scope := str "docs", priority := 95 },
    { pattern := str "\\.(md|rst|txt|adoc)$",
      matchesP := fun p => endsDotAny p [str "md", str "rst", str "txt", str "adoc"],
      numGroups := 1, scope := str "docs", priority := 80 },
    { pattern := str "^README",
      matchesP := fun p => strStarts p (str "README"),
      scope := str "docs", priority := 85 },
    { pattern := str "^\\.github/workflows/",
      matchesP := fun p => strStarts p (str ".github/workflows/"),
      scope := str "ci", priority := 95 },
    { pattern := str "^\\.gitlab-ci\\.yml$",
      matchesP := fun p => p = str ".gitlab-ci.yml",
      scope := str "ci", priority := 95 },
    { pattern := str "^(Dockerfile|docker-compose\\.yml|\\.dockerignore)$",
      matchesP := fun p =>
        p = str "Dockerfile" || p = str "docker-compose.yml" || p = str ".dockerignore",
      numGroups := 1, scope := str "ci", priority := 90 },
    { pattern := str "^(Makefile|Jenkinsfile)$",
      matchesP := fun p => p = str "Makefile" || p = str "Jenkinsfile",
      numGroups := 1, scope := str "ci", priority := 90 },
    { pattern := str "^(package\\.json|yarn\\.lock|package-lock\\.json|go\\.mod|go\\.sum|Cargo\\.toml|Cargo\\.lock|requirements\\.txt|Pipfile|composer\\.json)$",
      matchesP := fun p =>
        [str "package.json", str "yarn.lock", str "package-lock.json", str "go.mod",
         str "go.sum", str "Cargo.toml", str "Cargo.lock", str "requirements.txt",
         str "Pipfile", str "composer.json"].any (fun q => p = q),
      numGroups := 1, scope := str "deps", priority := 85 },
    { pattern := str "^(src/|app/)?(utils?|helpers?|lib|libs?)/",
      matchesP := fun p =>
        (List.product [[], str "src/", str "app/"]
          [str "util/", str "utils/", str "helper/", str "helpers/",
           str "lib/", str "libs/"]).any
          (fun pre => strStarts p (pre.1 ++ pre.2)),
      numGroups := 2, scope := str "utils", priority := 80 },
    { pattern := str "^(src/|app/)?services?/",
      matchesP := fun p => startsAny p
        [str "services/", str "service/", str "src/services/", str "src/service/",
         str "app/services/", str "app/service/"],
      numGroups := 1, scope := str "service", priority := 85 },
    { pattern := str "^(src/|app/)?(core|internal)/",
      matchesP := fun p =>
        (List.product [[], str "src/", str "app/"] [str "core/", str "internal/"]).any
          (fun pre => strStarts p (pre.1 ++ pre.2)),
      numGroups := 2, scope := str "core", priority := 85 } ]

/-- The scope a matched rule assigns: `$1` in the scope template is substituted
with the first capture when the pattern has capture groups
(`len(matches) > 1 && strings.Contains(scope, "$1")`). -/
def applyRuleScope (r : ScopeRule) (filePath : Str) : Str :=
  if 0 < r.numGroups ∧ strHasSub r.scope (str "$1") then
    strReplaceAll (str "$1") (r.cap1 filePath) r.scope
  else r.scope

/-- `scope.Detector.detectScopeForFileWithPriority`: first matching rule in the
detector's rule-list order wins. Unmatched: `("", 0)`. -/
def detectScopeForFileWithPriority (rules : List ScopeRule) (filePath : Str) : Str × Nat :=
  match rules with
  | [] => ([], 0)
  | r :: rs =>
    if r.matchesP filePath then (applyRuleScope r filePath, r.priority)
    else detectScopeForFileWithPriority rs filePath

/-- Association-list increment (Go `scopeCounts[scope]++`; insertion order is
used for iteration where the Go map order is unspecified). -/
def bumpCount (m : List (Str × Nat)) (k : Str) : List (Str × Nat) :=
  match m with
  | [] => [(k, 1)]
  | (k', v) :: rest => if k' = k then (k', v + 1) :: rest else (k', v) :: bumpCount rest k

/-- Keep the highest priority seen for a scope
(`!exists || priority > existingPriority`). -/
def keepMaxPrio (m : List (Str × Nat)) (k : Str) (p : Nat) : List (Str × Nat) :=
  match m with
  | [] => [(k, p)]
  | (k', v) :: rest =>
    if k' = k then (k', if v < p then p else v) :: rest
    else (k', v) :: keepMaxPrio rest k p

/-- Association-list lookup with the Go zero value 0 for a missing key. -/
def lookupCount (m : List (Str × Nat)) (k : Str) : Nat :=
  match m.find? (fun e => e.1 = k) with
  | some e => e.2
  | none => 0

/-- The per-file accumulation loop of `scope.Detector.DetectScope`. -/
def scopeCountsLoop (rules : List ScopeRule) :
    List Str → List (Str × Nat) → List (Str × Nat) → List (Str × Nat) × List (Str × Nat)
  | [], counts, prios => (counts, prios)
  | p :: ps, counts, prios =>
    let sp := detectScopeForFileWithPriority rules p
    if sp.1 ≠ [] then
      scopeCountsLoop rules ps (bumpCount counts sp.1) (keepMaxPrio prios sp.1 sp.2)
    else scopeCountsLoop rules ps counts prios

/-- The best-scope selection loop of `scope.Detector.DetectScope`
(`count > maxCount || (count == maxCount && priority > bestPriority)`). -/
def bestScopeLoop (prios : List (Str × Nat)) :
    List (Str × Nat) → Str → Nat → Nat → Str × Nat
  | [], best, maxCount, _ => (best, maxCount)
  | (scope, count) :: rest, best, maxCount, bestPrio =>
    let prio := lookupCount prios scope
    if maxCount < count ∨ (count = maxCount ∧ bestPrio < prio) then
      bestScopeLoop prios rest scope count prio
    else bestScopeLoop prios rest best maxCount bestPrio

/-- `scope.Detector.isHighPriorityScope`. -/
def isHighPriorityScope (scope : Str) : Bool :=
  [str "auth", str "api", str "db", str "security", str "core", str "config", str "ci",
   str "user", str "payment", str "order", str "notification", str "admin"].any
    (fun s => scope = s)

/-- `scope.Detector.DetectScope` (the priority-tracking variant of the scope
package). The 50% coverage test `float64(maxCount)/float64(totalFiles) >= 0.5`
is modelled exactly as `2*maxCount ≥ totalFiles` (for counts below 2^52 the
float64 division compares to 0.5 exactly like the rational it rounds). -/
def detectScope (rules : List ScopeRule) (summary : DiffSummary) : Str :=
  if summary.files = [] then []
  else
    let filePaths := summary.files.map (·.path)
    let cp := scopeCountsLoop rules filePaths [] []
    if cp.1 = [] then []
    else
      let best := bestScopeLoop cp.2 cp.1 [] 0 0
      let totalFiles := filePaths.length
      if totalFiles = 1 ∧ best.1 ≠ [] then best.1
      else if totalFiles ≤ 2 * best.2 then best.1
      else if 2 ≤ best.2 ∧ isHighPriorityScope best.1 then best.1
      else []

/-- Modelled from the spec (§4.6 ordering, restated by the claim): compare
major, then minor, then patch numerically; for equal triples a release is
newer than any pre-release; between pre-releases compare the kind by rank
`alpha < beta < rc`, then the pre-release number. -/
def specNewer (v1 v2 : SemanticVersion) : Prop :=
  v2.major < v1.major ∨
  (v1.major = v2.major ∧ (v2.minor < v1.minor ∨
    (v1.minor = v2.minor ∧ (v2.patch < v1.patch ∨
      (v1.patch = v2.patch ∧
        ((v1.preRelease = [] ∧ v2.preRelease ≠ []) ∨
         (v1.preRelease ≠ [] ∧ v2.preRelease ≠ [] ∧
          (preRank v2.preRelease < preRank v1.preRelease ∨
           (v1.preRelease = v2.preRelease ∧ v2.preNumber < v1.preNumber)))))))))

/- ===================== internal context analyzer ===================== -/

/-- `types.ConfigChange`. The Go value fields are `any`, but this analyzer only
ever stores strings in them. -/
structure ConfigChange where
  file : Str := []
  parameter : Str := []
  oldValue : Str := []
  newValue : Str := []
  context : Str := []
deriving Repr, DecidableEq

/-- The `configFilePatterns` table of `context.Analyzer.analyzeConfigChanges`;
each pattern is `$`-anchored, so `regexp.MatchString` is a suffix test. -/
def isConfigFile (p : Str) : Bool :=
  [str ".yaml", str ".yml", str ".json", str ".toml", str ".ini", str ".conf",
   str ".config", str "config.go", str "settings.go", str "constants.go"].any
    (fun suf => strEnds p suf)

/-- `context.Analyzer.parseConfigLine` (the `changeType` argument only feeds
the provisional context text, which a reconciled change overwrites). -/
def parseConfigLine (filePath line changeType : Str) : Option ConfigChange :=
  let line := strTrimSpace line
  if strHasSub line (str ":") then
    match splitOnce ':' line with
    | some (k, v) =>
      some { file := filePath, parameter := strTrimSpace k,
             newValue := strTrimSet ['"', '\x27'] (strTrimSpace v),
             context := str "Configuration " ++ changeType }
    | none => none
  else if strHasSub line (str "=") then
    match splitOnce '=' line with
    | some (k, v) =>
      some { file := filePath, parameter := strTrimSpace k, newValue := strTrimSpace v,
             context := str "Configuration " ++ changeType }
    | none => none
  else none

/-- `context.Analyzer.analyzeTimeoutChange`. -/
def analyzeTimeoutChange (parameter oldValue newValue : Str) : Str :=
  str "Timeout configuration \x27" ++ parameter ++ str "\x27 adjusted from " ++ oldValue ++
  str " to " ++ newValue ++ str " - likely for performance optimization or reliability improvement"

/-- `context.Analyzer.analyzeNetworkChange`. -/
def analyzeNetworkChange (parameter oldValue newValue : Str) : Str :=
  str "Network configuration \x27" ++ parameter ++ str "\x27 updated from " ++ oldValue ++
  str " to " ++ newValue ++ str " - may indicate environment change or service migration"

/-- `context.Analyzer.analyzeLimitChange`. -/
def analyzeLimitChange (parameter oldValue newValue : Str) : Str :=
  str "Limit configuration \x27" ++ parameter ++ str "\x27 changed from " ++ oldValue ++
  str " to " ++ newValue ++ str " - likely for capacity planning or performance tuning"

/-- `context.Analyzer.analyzeBooleanChange`. -/
def analyzeBooleanChange (parameter oldValue newValue : Str) : Str :=
  if newValue = str "true" ∧ oldValue = str "false" then
    str "Feature \x27" ++ parameter ++ str "\x27 enabled - functionality activation"
  else if newValue = str "false" ∧ oldValue = str "true" then
    str "Feature \x27" ++ parameter ++ str "\x27 disabled - functionality deactivation"
  else
    str "Boolean configuration \x27" ++ parameter ++ str "\x27 toggled from " ++ oldValue ++
    str " to " ++ newValue

/-- `context.Analyzer.analyzeVersionChange`. -/
def analyzeVersionChange (parameter oldValue newValue : Str) : Str :=
  str "Version configuration \x27" ++ parameter ++ str "\x27 updated from " ++ oldValue ++
  str " to " ++ newValue ++ str " - likely upgrade or compatibility change"

/-- `context.Analyzer.analyzeModeChange`. -/
def analyzeModeChange (parameter oldValue newValue : Str) : Str :=
  str "Mode configuration \x27" ++ parameter ++ str "\x27 changed from " ++ oldValue ++
  str " to " ++ newValue ++ str " - operational behavior modification"

/-- The generic fallback of `context.Analyzer.analyzeConfigChangeContext`. -/
def analyzeGenericChange (oldValue newValue : Str) : Str :=
  str "Configuration value changed from \x27" ++ oldValue ++ str "\x27 to \x27" ++
  newValue ++ str "\x27"

/-- `context.Analyzer.analyzeConfigChangeContext`: keyword category on the
parameter name selects the rationale. -/
def analyzeConfigChangeContext (parameter oldValue newValue : Str) : Str :=
  let paramLower := strLower parameter
  if strHasSub paramLower (str "timeout") || strHasSub paramLower (str "delay") then
    analyzeTimeoutChange parameter oldValue newValue
  else if strHasSub paramLower (str "port") || strHasSub paramLower (str "host") ||
      strHasSub paramLower (str "url") then
    analyzeNetworkChange parameter oldValue newValue
  else if strHasSub paramLower (str "size") || strHasSub paramLower (str "limit") ||
      strHasSub paramLower (str "max") || strHasSub paramLower (str "min") then
    analyzeLimitChange parameter oldValue newValue
  else if strHasSub paramLower (str "enable") || strHasSub paramLower (str "disable") ||
      oldValue = str "true" || oldValue = str "false" ||
      newValue = str "true" || newValue = str "false" then
    analyzeBooleanChange parameter oldValue newValue
  else if strHasSub paramLower (str "version") || strHasSub paramLower (str "model") then
    analyzeVersionChange parameter oldValue newValue
  else if strHasSub paramLower (str "level") || strHasSub paramLower (str "mode") then
    analyzeModeChange parameter oldValue newValue
  else analyzeGenericChange oldValue newValue

/-- Go map insert-or-overwrite on an association list (Go
`removedConfigs[param] = change`). -/
def upsertChange (m : List (Str × ConfigChange)) (k : Str) (c : ConfigChange) :
    List (Str × ConfigChange) :=
  match m with
  | [] => [(k, c)]
  | (k', c') :: rest => if k' = k then (k', c) :: rest else (k', c') :: upsertChange rest k c

/-- Association-list lookup for config-change maps. -/
def lookupChange (m : List (Str × ConfigChange)) (k : Str) : Option ConfigChange :=
  (m.find? (fun e => e.1 = k)).map (·.2)

/-- The line-scanning loop of `context.Analyzer.extractConfigChanges`,
building the removed- and added-config maps. -/
def configLineLoop (filePath : Str) :
    List Str → List (Str × ConfigChange) → List (Str × ConfigChange) →
    List (Str × ConfigChange) × List (Str × ConfigChange)
  | [], removed, added => (removed, added)
  | l :: ls, removed, added =>
    let line := strTrimSpace l
    if strStarts line (str "-") ∧ (strHasSub line (str ":") || strHasSub line (str "=")) then
      match parseConfigLine filePath (line.drop 1) (str "removed") with
      | some c => configLineLoop filePath ls (upsertChange removed c.parameter c) added
      | none => configLineLoop filePath ls removed added
    else if strStarts line (str "+") ∧ (strHasSub line (str ":") || strHasSub line (str "=")) then
      match parseConfigLine filePath (line.drop 1) (str "added") with
      | some c => configLineLoop filePath ls removed (upsertChange added c.parameter c)
      | none => configLineLoop filePath ls removed added
    else configLineLoop filePath ls removed added

/-- `context.Analyzer.extractConfigChanges`: scan the diff content, then
reconcile keys present on both sides into single old→new changes, and record
the rest as pure removals/additions (in removed-map then added-map order; the
Go maps iterate in unspecified order, the model iterates insertion order). -/
def extractConfigChanges (file : FileChange) : List ConfigChange :=
  let maps := configLineLoop file.path (splitOnNl file.content) [] []
  let removed := maps.1
  let added := maps.2
  let valueChanges := removed.filterMap (fun rc =>
    (lookupChange added rc.1).map (fun ac =>
      { file := file.path, parameter := rc.1, oldValue := rc.2.newValue,
        newValue := ac.newValue,
        context := analyzeConfigChangeContext rc.1 rc.2.newValue ac.newValue }))
  let remRemoved := (removed.filter (fun rc => lookupChange added rc.1 = none)).map
    (fun rc => { rc.2 with context := str "Configuration parameter removed: " ++ rc.2.parameter })
  let remAdded := (added.filter (fun ac => lookupChange removed ac.1 = none)).map
    (fun ac => { ac.2 with context := str "New configuration parameter added: " ++ ac.2.parameter })
  valueChanges ++ remRemoved ++ remAdded

/-- `context.Analyzer.analyzeConfigChanges`: config-looking files only. -/
def analyzeConfigChanges (summary : DiffSummary) : List ConfigChange :=
  (summary.files.map (fun f => if isConfigFile f.path then extractConfigChanges f else [])).flatten

/-- A value of the `map[string]any` change-pattern map: the analyzer stores
booleans, counters and string-counter maps. -/
inductive PatVal where
  | b (v : Bool)
  | n (v : Nat)
  | m (v : List (Str × Nat))
deriving Repr, DecidableEq

/-- `context.Analyzer.analyzeChangePatterns`, as the association list of
pattern entries it adds (in statement order). -/
def analyzeChangePatterns (summary : DiffSummary) : List (Str × PatVal) :=
  let fileTypes := summary.files.foldl
    (fun m f => if f.language ≠ [] then bumpCount m f.language else m) []
  let changeTypes := summary.files.foldl (fun m f => bumpCount m f.changeType) []
  let docFiles := (summary.files.filter (fun f =>
    strEnds (strLower f.path) (str ".md") || strEnds (strLower f.path) (str ".txt") ||
    strHasSub (strLower f.path) (str "doc"))).length
  [(str "file_types", PatVal.m fileTypes), (str "change_types", PatVal.m changeTypes)] ++
  (if 3 < summary.files.length ∧
      lookupCount changeTypes ctAdded < lookupCount changeTypes ctModified then
    [(str "likely_refactoring", PatVal.b true)] else []) ++
  (if lookupCount changeTypes ctModified < lookupCount changeTypes ctAdded then
    [(str "likely_new_feature", PatVal.b true)] else []) ++
  (if 0 < docFiles then
    [(str "documentation_update", PatVal.b true), (str "documentation_files", PatVal.n docFiles)]
   else [])

/-- Lookup in the change-pattern association list. -/
def lookupPat (m : List (Str × PatVal)) (k : Str) : Option PatVal :=
  (m.find? (fun e => e.1 = k)).map (·.2)

/- ===================== internal validation ===================== -/

/-- `validation.ValidationConfig`. The Go zero value has all fields 0 / false /
nil / empty. -/
structure ValidationConfig where
  maxSubjectLength : Nat := 0
  maxBodyLineLength : Nat := 0
  enforceImperative : Bool := false
  enforceCapitalization : Bool := false
  allowedTypes : List Str := []
  requireBody : Bool := false
  language : Str := []
deriving Repr, DecidableEq

/-- `validation.NewValidator`: fill in defaults for unset fields. -/
def newValidator (config : ValidationConfig) : ValidationConfig :=
  let config := if config.maxSubjectLength = 0 then { config with maxSubjectLength := 50 } else config
  let config := if config.maxBodyLineLength = 0 then { config with maxBodyLineLength := 72 } else config
  let config := if config.allowedTypes = [] then
    { config with allowedTypes :=
        [str "feat", str "fix", str "docs", str "style", str "refactor", str "perf",
         str "test", str "build", str "ci", str "chore", str "revert"] } else config
  if config.language = [] then { config with language := str "en" } else config

/-- `validation.ValidationError` (the localized, `Sprintf`-formatted message
text is represented by its localization key; no claim inspects the text). -/
structure ValidationError where
  type : Str
  msgKey : Str
  severity : Str
deriving Repr, DecidableEq

/-- `validation.ValidationWarning` (message text represented by its key). -/
structure ValidationWarning where
  type : Str
  msgKey : Str
  suggestion : Str := []
deriving Repr, DecidableEq

/-- `validation.ValidationSuggestion` (message text represented by its key). -/
structure ValidationSuggestion where
  type : Str
  msgKey : Str
  original : Str := []
  suggested : Str := []
deriving Repr, DecidableEq

/-- `validation.ValidationResult`. -/
structure ValidationResult where
  isValid : Bool
  errors : List ValidationError
  warnings : List ValidationWarning
  suggestions : List ValidationSuggestion
deriving Repr, DecidableEq

/-- The truncation loop of `validation.Validator.truncateSubject`. -/
def truncLoop (maxLength : Nat) : List Str → Str → Str
  | [], result => result
  | w :: ws, result =>
    if result.length + w.length + 1 ≤ maxLength then
      truncLoop maxLength ws (if result = [] then w else result ++ [' '] ++ w)
    else result

/-- `validation.Validator.truncateSubject`. -/
def truncateSubject (subject : Str) (maxLength : Nat) : Str :=
  if subject.length ≤ maxLength then subject
  else
    let words := strFields subject
    let result := truncLoop maxLength words []
    if result = [] ∧ words ≠ [] then subject.take (maxLength - 3) ++ str "..."
    else result

/-- The remainder of `s` after the conventional-commit prefix
`^[a-z]+(\([^)]+\))?(!)?: ` (`none` when the prefix regex does not match).
The optional groups are deterministic: `(`, `!` and `:` are mutually distinct,
so the greedy regex and this direct parse agree. -/
def convRest (s : Str) : Option Str :=
  let t := s.takeWhile (fun c => 'a' ≤ c && c ≤ 'z')
  if t = [] then none
  else
    let bangColon : Str → Option Str := fun r =>
      match if r.head? = some '!' then r.drop 1 else r with
      | ':' :: ' ' :: rest => some rest
      | _ => none
    let r := s.drop t.length
    match r with
    | '(' :: inside =>
      let inner := inside.takeWhile (fun c => c ≠ ')')
      if inner ≠ [] ∧ (inside.drop inner.length).head? = some ')' then
        bangColon (inside.drop (inner.length + 1))
      else none
    | _ => bangColon r

/-- `validation.Validator.isImperativeMood`: strip the conventional prefix,
then reject subjects opening with a known non-imperative verb form. -/
def isImperativeMood (subject : Str) : Bool :=
  let cleanSubject := (convRest subject).getD subject
  let lower := strLower cleanSubject
  ¬ ([str "added", str "adding", str "fixed", str "fixing", str "updated", str "updating",
      str "removed", str "removing", str "changed", str "changing", str "implemented",
      str "implementing", str "refactored", str "refactoring"].any
      (fun p => strStarts lower p))

/-- The verb-replacement table of `validation.Validator.suggestImperativeMood`. -/
def imperativeTable : List (Str × Str) :=
  [(str "added", str "add"), (str "adding", str "add"), (str "fixed", str "fix"),
   (str "fixing", str "fix"), (str "updated", str "update"), (str "updating", str "update"),
   (str "removed", str "remove"), (str "removing", str "remove"), (str "changed", str "change"),
   (str "changing", str "change"), (str "implemented", str "implement"),
   (str "implementing", str "implement"), (str "refactored", str "refactor"),
   (str "refactoring", str "refactor")]

/-- `validation.Validator.suggestImperativeMood`. -/
def suggestImperativeMood (subject : Str) : Str :=
  let words := strFields subject
  match words with
  | [] => subject
  | w :: ws =>
    match (imperativeTable.find? (fun e => e.1 = strLower w)).map (·.2) with
    | some repl =>
      match repl with
      | [] => List.intercalate [' '] ([] :: ws)
      | c :: cs => List.intercalate [' '] ((c.toUpper :: cs) :: ws)
    | none => subject

/-- `validation.Validator.validateSubjectLine`: the errors, warnings and
suggestions it appends, in order. -/
def validateSubjectLine (config : ValidationConfig) (subject : Str) :
    List ValidationError × List ValidationWarning × List ValidationSuggestion :=
  let lengthErrs :=
    if config.maxSubjectLength < subject.length then
      [{ type := str "subject_length", msgKey := str "subject_too_long",
         severity := str "error" : ValidationError }]
    else []
  let truncSugs :=
    if config.maxSubjectLength < subject.length then
      [{ type := str "subject_truncation", msgKey := str "suggest_truncation",
         original := subject,
         suggested := truncateSubject subject config.maxSubjectLength : ValidationSuggestion }]
    else []
  let periodWarns :=
    if strEnds subject (str ".") then
      [{ type := str "trailing_period", msgKey := str "no_trailing_period",
         suggestion := strDropSuf (str ".") subject : ValidationWarning }]
    else []
  let capWarns :=
    if config.enforceCapitalization ∧ subject ≠ [] then
      match subject with
      | [] => []
      | c :: cs =>
        if ¬ c.isUpper then
          [{ type := str "capitalization", msgKey := str "capitalize_first_letter",
             suggestion := c.toUpper :: cs : ValidationWarning }]
        else []
    else []
  let imperativeWarns :=
    if config.enforceImperative ∧ ¬ isImperativeMood subject then
      [{ type := str "imperative_mood", msgKey := str "use_imperative_mood",
         suggestion := suggestImperativeMood subject : ValidationWarning }]
    else []
  let emptyErrs :=
    if strTrimSpace subject = [] then
      [{ type := str "empty_subject", msgKey := str "empty_subject",
         severity := str "error" : ValidationError }]
    else []
  (lengthErrs ++ emptyErrs, periodWarns ++ capWarns ++ imperativeWarns, truncSugs)

/-- `validation.Validator.validateBody`: long-line warnings and the
blank-line-separation warning. -/
def validateBody (config : ValidationConfig) (body : Str) : List ValidationWarning :=
  ((splitOnNl body).filter
    (fun line => strTrimSpace line ≠ [] ∧ config.maxBodyLineLength < line.length)).map
    (fun _ => { type := str "body_line_length", msgKey := str "body_line_too_long" }) ++
  (if ¬ strStarts body (str "\n") then
    [{ type := str "body_separation", msgKey := str "body_needs_blank_line" : ValidationWarning }]
   else [])

/-- `types.CommitMessage`, restricted to the fields the validator reads. -/
structure CommitMessage where
  subject : Str := []
  description : Str := []
  body : Str := []
deriving Repr, DecidableEq

/-- `validation.Validator.validateConventionalCommits` together with the
`validateBreakingChanges` call it makes: an invalid-type error and a
breaking-change-footer warning. -/
def validateConventionalCommits (config : ValidationConfig) (m : CommitMessage) :
    List ValidationError × List ValidationWarning :=
  match convRest m.subject with
  | some rest =>
    if rest ≠ [] then
      let commitType := m.subject.takeWhile (fun c => 'a' ≤ c && c ≤ 'z')
      let typeErrs :=
        if ¬ config.allowedTypes.any (fun t => t = commitType) then
          [{ type := str "invalid_type", msgKey := str "invalid_commit_type",
             severity := str "error" : ValidationError }]
        else []
      let breakWarns :=
        if strHasSub m.subject (str "!") ∧ ¬ strHasSub m.body (str "BREAKING CHANGE:") then
          [{ type := str "breaking_change_footer",
             msgKey := str "breaking_change_needs_footer" : ValidationWarning }]
        else []
      (typeErrs, breakWarns)
    else ([], [])
  | none => ([], [])

/-- `validation.Validator.validateAtomicCommit`: warn when the subject hints at
several changes at once. -/
def validateAtomicCommit (m : CommitMessage) : List ValidationWarning :=
  let subject := strLower m.subject
  if [str " and ", str " & ", str ", ", str " + ", str " also ", str " additionally ",
      str " furthermore ", str " moreover ", str " besides ", str " as well as ",
      str " along with "].any (fun ind => strHasSub subject ind) then
    [{ type := str "atomic_commit", msgKey := str "consider_atomic_commits" }]
  else []

/-- `validation.Validator.ValidateCommitMessage`. -/
def validateCommitMessage (config : ValidationConfig) (m : CommitMessage) : ValidationResult :=
  let subject := if m.subject = [] then m.description else m.subject
  let subj := validateSubjectLine config subject
  let bodyWarns := if m.body ≠ [] then validateBody config m.body else []
  let conv := validateConventionalCommits config m
  let atomic := validateAtomicCommit m
  let errors := subj.1 ++ conv.1
  { isValid := errors = []
    errors := errors
    warnings := subj.2.1 ++ bodyWarns ++ conv.2 ++ atomic
    suggestions := subj.2.2 }

/- ===================== auxiliary definitions for the statements ===================== -/

/-- The files of a chunk list, concatenated in order. -/
def joinFiles (chunks : List DiffChunk) : List FileChange :=
  (chunks.map (·.files)).flatten

/-- A well-formed diff section, as a list of newline-free lines: non-empty,
the first line carries the `diff --git` marker, no later line does. -/
def WfSection (sec : List Str) : Prop :=
  sec ≠ [] ∧ strStarts sec.headI (str "diff --git") = true ∧
  ∀ l ∈ sec.tail, strStarts l (str "diff --git") = false

/-- The raw text of a section: its lines, each terminated by a newline (the
form `splitDiffByFile` reassembles sections in). -/
def renderSection (sec : List Str) : Str := (sec.map (· ++ ['\n'])).flatten

/-- The sort key of `prioritizeFiles`: change-type priority, file importance,
total line delta. -/
def fileKey (f : FileChange) : Nat × Nat × Nat :=
  (getChangeTypePriority f.changeType, getFileImportance f.path,
   f.linesAdded + f.linesDeleted)

/-- The pre-release suffix of `verString` (everything after
`MAJOR.MINOR.PATCH`). -/
def preTail (v : SemanticVersion) : Str :=
  if v.preRelease ≠ [] then
    if 0 < v.preNumber then '-' :: (v.preRelease ++ '.' :: natToStr v.preNumber)
    else '-' :: v.preRelease
  else []

/-- The effective pre-release rank of a version: a release (no pre-release)
ranks 4, above `rc`; otherwise the `preRank` of the tag. -/
def rank4 (v : SemanticVersion) : Nat :=
  if v.preRelease = [] then 4 else preRank v.preRelease

/-- The comparison key of `isVersionNewer` on valid versions: numeric triple,
then the pre-release rank with a release ranked 4 (above `rc`), then the
pre-release number. -/
def verKey (v : SemanticVersion) : Nat × Nat × Nat × Nat × Nat :=
  (v.major, v.minor, v.patch, rank4 v, v.preNumber)

/-- Strict lexicographic order on the five-component version key. -/
def keyLt (a b : Nat × Nat × Nat × Nat × Nat) : Prop :=
  a.1 < b.1 ∨ (a.1 = b.1 ∧ (a.2.1 < b.2.1 ∨ (a.2.1 = b.2.1 ∧
    (a.2.2.1 < b.2.2.1 ∨ (a.2.2.1 = b.2.2.1 ∧
      (a.2.2.2.1 < b.2.2.2.1 ∨ (a.2.2.2.1 = b.2.2.2.1 ∧ a.2.2.2.2 < b.2.2.2.2)))))))

/-- The validator configuration built by `generator.NewService` (the one the
application actually validates with: imperative mood and capitalization
enforced). -/
def generatorValidatorConfig : ValidationConfig :=
  newValidator
    { maxSubjectLength := 50, maxBodyLineLength := 72, enforceImperative := true,
      enforceCapitalization := true,
      allowedTypes :=
        [str "feat", str "fix", str "docs", str "style", str "refactor", str "perf",
         str "test", str "build", str "ci", str "chore", str "revert", str "security",
         str "deps"],
      requireBody := false, language := str "vi" }

/-- Concrete two-file input used by witnesses. -/
def wFileA : FileChange := { path := str "a.bin", changeType := ctAdded, content := str "123456" }
def wFileB : FileChange := { path := str "b.bin", changeType := ctModified, content := str "7890" }
def wSummary : DiffSummary := { files := [wFileA, wFileB] }

/-- Concrete two-section diff text used by the C3 witness. -/
def textC3 : Str :=
  str "diff --git a/x.go b/x.go\n@@ -1 +1 @@\n+aa\ndiff --git a/y.md b/y.md\n@@ -1 +1 @@\n-bb\n"

/-- The two sections of `textC3`, as line lists. -/
def ssC3 : List (List Str) :=
  [[str "diff --git a/x.go b/x.go", str "@@ -1 +1 @@", str "+aa"],
   [str "diff --git a/y.md b/y.md", str "@@ -1 +1 @@", str "-bb"]]

/-- A diff section of an ordinary in-place modification: identical source and
destination paths, no file-mode lines (the C4 failing input). -/
def secC4 : Str :=
  str "diff --git a/config.go b/config.go\n@@ -1,2 +1,2 @@\n-old\n+new\n"

/-- Single-file diff touching only `internal/ai/client.go` (first C6 scenario). -/
def sumC6a : DiffSummary := { files := [{ path := str "internal/ai/client.go" }] }

/-- Three-file diff of which two files detect scope `config` and one detects
scope `ui` (second C6 scenario). -/
def sumC6b : DiffSummary :=
  { files := [{ path := str "config/app.yaml" }, { path := str "settings.toml" },
              { path := str "web/button.css" }] }

/-- The file path refuting the priority-order reading of rule dispatch (C7). -/
def pathC7 : Str := str "api/app.js"

/-- The added `.yaml` file of the C8 scenario, whose diff content replaces
`config.Timeout = 30` by `config.Timeout = 60`. -/
def fileC8 : FileChange :=
  { path := str "config/app.yaml", changeType := ctAdded, linesAdded := 80,
    language := str "YAML",
    content := str "diff --git a/config/app.yaml b/config/app.yaml\n@@ -1,2 +1,2 @@\n-config.Timeout = 30\n+config.Timeout = 60\n" }

/-- The single-file diff summary of the C8 scenario. -/
def sumC8 : DiffSummary := { files := [fileC8] }

/-- The C9 commit message with a trailing period and a non-imperative opening
verb. -/
def msgC9 : CommitMessage := { subject := str "Added new login flow." }

/-- A 60-character subject line (C9 length-error scenario). -/
def subjC9 : Str := str "Implement the brand new login flow for all the peer userpool"

/-- Valid pre-release and release versions used by the C5 witness. -/
def verC5a : SemanticVersion := { major := 1, minor := 22, patch := 3, preRelease := preRC, preNumber := 4 }
def verC5b : SemanticVersion := { major := 1, minor := 22, patch := 3 }

instance (sec : List Str) : Decidable (WfSection sec) := by
  unfold WfSection
  infer_instance

instance (v : SemanticVersion) : Decidable (ValidVersion v) := by
  unfold ValidVersion
  infer_instance

/- ===================== theorems ===================== -/

/-- The chunk loop never loses, duplicates or reorders a file: the chunks'
files concatenate to the pending current chunk followed by the remaining
input. -/
theorem createChunksLoop_join (max : Nat) :
    ∀ (fs cur : List FileChange) (sz : Nat),
      joinFiles (createChunksLoop max fs cur sz) = cur ++ fs := by
  intro fs
  induction fs with
  | nil =>
    intro cur sz
    by_cases h : cur = [] <;> simp [createChunksLoop, joinFiles, h]
  | cons f fs ih =>
    intro cur sz
    by_cases h : max < sz + f.content.length ∧ cur ≠ []
    · simp only [createChunksLoop, if_pos h]
      have := ih [f] f.content.length
      simp only [joinFiles, List.map_cons, List.flatten_cons] at this ⊢
      rw [this]
      simp
    · simp only [createChunksLoop, if_neg h]
      rw [ih (cur ++ [f]) (sz + f.content.length)]
      simp

/-- Every chunk the loop emits records as its size the sum of its files'
content lengths, provided the running size does. -/
theorem createChunksLoop_size (max : Nat) :
    ∀ (fs cur : List FileChange) (sz : Nat), sz = sumLen cur →
      ∀ c ∈ createChunksLoop max fs cur sz, c.size = sumLen c.files := by
  intro fs
  induction fs with
  | nil =>
    intro cur sz hsz c hc
    by_cases h : cur = [] <;> simp [createChunksLoop, h] at hc
    subst hc
    simpa using hsz
  | cons f fs ih =>
    intro cur sz hsz c hc
    by_cases h : max < sz + f.content.length ∧ cur ≠ []
    · simp only [createChunksLoop, if_pos h, List.mem_cons] at hc
      rcases hc with hc | hc
      · subst hc; simpa using hsz
      · exact ih [f] f.content.length (by simp [sumLen]) c hc
    · simp only [createChunksLoop, if_neg h] at hc
      refine ih (cur ++ [f]) (sz + f.content.length) ?_ c hc
      simp [sumLen, hsz]

/-- Size-bound invariant of the chunk loop: if the pending chunk is within
budget (or empty, or a single oversized file), then every emitted chunk is
within budget or is a single oversized file. -/
theorem createChunksLoop_bound (max : Nat) :
    ∀ (fs cur : List FileChange) (sz : Nat), sz = sumLen cur →
      (cur = [] ∨ sz ≤ max ∨ ∃ f, cur = [f] ∧ max < f.content.length) →
      ∀ c ∈ createChunksLoop max fs cur sz,
        c.size ≤ max ∨ ∃ f, c.files = [f] ∧ max < f.content.length := by
  intro fs
  induction fs with
  | nil =>
    intro cur sz hsz hinv c hc
    by_cases h : cur = [] <;> simp [createChunksLoop, h] at hc
    subst hc
    rcases hinv with h' | h' | h'
    · exact absurd h' h
    · exact Or.inl h'
    · exact Or.inr h'
  | cons f fs ih =>
    intro cur sz hsz hinv c hc
    by_cases h : max < sz + f.content.length ∧ cur ≠ []
    · simp only [createChunksLoop, if_pos h, List.mem_cons] at hc
      rcases hc with hc | hc
      · subst hc
        rcases hinv with h' | h' | h'
        · exact absurd h' h.2
        · exact Or.inl h'
        · exact Or.inr h'
      · refine ih [f] f.content.length (by simp [sumLen]) ?_ c hc
        by_cases hf : f.content.length ≤ max
        · exact Or.inr (Or.inl hf)
        · exact Or.inr (Or.inr ⟨f, rfl, by omega⟩)
    · simp only [createChunksLoop, if_neg h] at hc
      refine ih (cur ++ [f]) (sz + f.content.length) (by simp [sumLen, hsz]) ?_ c hc
      by_cases hle : sz + f.content.length ≤ max
      · exact Or.inr (Or.inl hle)
      · have hcur : cur = [] := by
          by_contra hne
          exact h ⟨by omega, hne⟩
        subst hcur
        have hsz0 : sz = 0 := by simpa [sumLen] using hsz
        exact Or.inr (Or.inr ⟨f, by simp, by omega⟩)

/-- Claim C1: every chunk produced by `ProcessDiff` has combined content size
at most the configured `maxChunkSize`, except that a chunk may exceed the
budget only by consisting of exactly one file whose own content length already
exceeds `maxChunkSize` (an oversized file is never grouped and never split). -/
theorem processDiff_chunk_size_bound (p : Processor) (s : DiffSummary) :
    ∀ c ∈ (processDiff p s).chunks,
      c.size ≤ p.maxChunkSize ∨
      ∃ f, c.files = [f] ∧ p.maxChunkSize < f.content.length := by
  intro c hc
  exact createChunksLoop_bound p.maxChunkSize (processedFiles p s) [] 0 (by simp [sumLen])
    (Or.inl rfl) c hc

/-- Witness for C1: a 7-character file under an 5-character budget forms its
own oversized singleton chunk, and the bound theorem applies to it. -/
theorem processDiff_chunk_size_bound_witness :
    (⟨[{ path := str "b", changeType := ctAdded, content := str "7890123" }], 7⟩ : DiffChunk) ∈
      (processDiff (newProcessor 5 10)
        { files := [{ path := str "b", changeType := ctAdded, content := str "7890123" }] }).chunks ∧
    ((⟨[{ path := str "b", changeType := ctAdded, content := str "7890123" }], 7⟩ : DiffChunk).size ≤
        (newProcessor 5 10).maxChunkSize ∨
      ∃ f, (⟨[{ path := str "b", changeType := ctAdded, content := str "7890123" }], 7⟩ : DiffChunk).files = [f] ∧
        (newProcessor 5 10).maxChunkSize < f.content.length) :=
  ⟨by decide,
   processDiff_chunk_size_bound (newProcessor 5 10)
     { files := [{ path := str "b", changeType := ctAdded, content := str "7890123" }] }
     _ (by decide)⟩

/-- Claim C10: chunking is a lossless contiguous partition — concatenating the
chunks' files reproduces exactly the truncated, prioritized file list, and
each chunk's `Size` equals the sum of its files' content lengths. -/
theorem processDiff_chunks_partition (p : Processor) (s : DiffSummary) :
    joinFiles (processDiff p s).chunks = processedFiles p s ∧
    ∀ c ∈ (processDiff p s).chunks, c.size = sumLen c.files := by
  constructor
  · simpa using createChunksLoop_join p.maxChunkSize (processedFiles p s) [] 0
  · intro c hc
    exact createChunksLoop_size p.maxChunkSize (processedFiles p s) [] 0 (by simp [sumLen]) c hc

/-- Witness for C10: concrete two-file input, the partition equation holds and
the size equation applies to the first emitted chunk. -/
theorem processDiff_chunks_partition_witness :
    (joinFiles (processDiff (newProcessor 7 10) wSummary).chunks =
      processedFiles (newProcessor 7 10) wSummary ∧
     (⟨[wFileA], 6⟩ : DiffChunk) ∈ (processDiff (newProcessor 7 10) wSummary).chunks ∧
     (⟨[wFileA], 6⟩ : DiffChunk).size = sumLen (⟨[wFileA], 6⟩ : DiffChunk).files) := by
  refine ⟨(processDiff_chunks_partition (newProcessor 7 10) wSummary).1, by decide,
    (processDiff_chunks_partition (newProcessor 7 10) wSummary).2 _ (by decide)⟩


/-- `insertLe` inserts: the result is a permutation of `x :: l`. -/
theorem insertLe_perm {α : Type} (le : α → α → Bool) (x : α) :
    ∀ l : List α, (insertLe le x l).Perm (x :: l) := by
  intro l
  induction l with
  | nil => simp [insertLe]
  | cons y ys ih =>
    by_cases h : le x y
    · simp [insertLe, h]
    · simp only [insertLe, if_neg h]
      exact ((ih.cons y).trans (List.Perm.swap x y ys))

/-- Insertion sort permutes its input. -/
theorem insertionSortLe_perm {α : Type} (le : α → α → Bool) :
    ∀ l : List α, (insertionSortLe le l).Perm l := by
  intro l
  induction l with
  | nil => simp [insertionSortLe]
  | cons x xs ih =>
    exact (insertLe_perm le x (insertionSortLe le xs)).trans (ih.cons x)

/-- Inserting into a `le`-sorted list keeps it sorted, for a total and
transitive `le`. -/
theorem insertLe_pairwise {α : Type} (le : α → α → Bool) (x : α)
    (htotal : ∀ a b, le a b || le b a)
    (htrans : ∀ a b c, le a b = true → le b c = true → le a c = true) :
    ∀ l : List α, l.Pairwise (fun a b => le a b = true) →
      (insertLe le x l).Pairwise (fun a b => le a b = true) := by
  intro l
  induction l with
  | nil => simp [insertLe]
  | cons y ys ih =>
    intro h
    rcases List.pairwise_cons.1 h with ⟨hy, hys⟩
    by_cases hxy : le x y
    · simp only [insertLe, if_pos hxy]
      refine List.pairwise_cons.2 ⟨?_, h⟩
      intro z hz
      rcases List.mem_cons.1 hz with hzy | hz
      · rw [hzy]; exact hxy
      · exact htrans x y z hxy (hy z hz)
    · simp only [insertLe, if_neg hxy]
      refine List.pairwise_cons.2 ⟨?_, ih hys⟩
      intro z hz
      have hz' : z = x ∨ z ∈ ys :=
        List.mem_cons.1 ((insertLe_perm le x ys).mem_iff.1 hz)
      rcases hz' with hzx | hz'
      · rw [hzx]
        have h2 := htotal x y
        simp [hxy] at h2
        exact h2
      · exact hy z hz'

/-- Insertion sort sorts, for a total and transitive `le`. -/
theorem insertionSortLe_pairwise {α : Type} (le : α → α → Bool)
    (htotal : ∀ a b, le a b || le b a)
    (htrans : ∀ a b c, le a b = true → le b c = true → le a c = true) :
    ∀ l : List α, (insertionSortLe le l).Pairwise (fun a b => le a b = true) := by
  intro l
  induction l with
  | nil => simp [insertionSortLe]
  | cons x xs ih => exact insertLe_pairwise le x htotal htrans (insertionSortLe le xs) ih

/-- The `sort.Slice` comparator of `prioritizeFiles` is the strict
lexicographic order on `fileKey` (priority and importance descending, line
delta ascending). -/
theorem prioritizeLess_iff (a b : FileChange) :
    prioritizeLess a b = true ↔
      ((fileKey b).1 < (fileKey a).1 ∨
       ((fileKey a).1 = (fileKey b).1 ∧
        ((fileKey b).2.1 < (fileKey a).2.1 ∨
         ((fileKey a).2.1 = (fileKey b).2.1 ∧ (fileKey a).2.2 < (fileKey b).2.2)))) := by
  simp only [prioritizeLess, fileKey]
  split_ifs with h1 h2 <;> simp_all <;> omega

/-- The zero case of the comparator, as needed for sortedness transport. -/
theorem prioritizeLess_false_iff (a b : FileChange) :
    prioritizeLess a b = false ↔
      ¬((fileKey b).1 < (fileKey a).1 ∨
       ((fileKey a).1 = (fileKey b).1 ∧
        ((fileKey b).2.1 < (fileKey a).2.1 ∨
         ((fileKey a).2.1 = (fileKey b).2.1 ∧ (fileKey a).2.2 < (fileKey b).2.2)))) := by
  rw [← prioritizeLess_iff a b]
  cases h : prioritizeLess a b <;> simp

/-- Claim C2: `ProcessDiff` returns at most `maxFiles` files, and the
prioritized order puts every added/deleted file before every modified file,
breaking change-type ties by higher file importance, then by smaller
added-plus-deleted line totals. -/
theorem processDiff_maxFiles_order (p : Processor) (s : DiffSummary) :
    (processDiff p s).totalFiles ≤ p.maxFiles ∧
    List.Pairwise (fun a b =>
      getChangeTypePriority b.changeType < getChangeTypePriority a.changeType ∨
      (getChangeTypePriority a.changeType = getChangeTypePriority b.changeType ∧
       (getFileImportance b.path < getFileImportance a.path ∨
        (getFileImportance a.path = getFileImportance b.path ∧
         a.linesAdded + a.linesDeleted ≤ b.linesAdded + b.linesDeleted))))
      (processedFiles p s) ∧
    List.Pairwise (fun a b =>
      ¬(a.changeType = ctModified ∧ (b.changeType = ctAdded ∨ b.changeType = ctDeleted)))
      (processedFiles p s) := by
  have htotal : ∀ a b : FileChange, (!prioritizeLess b a) || (!prioritizeLess a b) := by
    intro a b
    by_contra hcon
    simp only [Bool.or_eq_true, Bool.not_eq_true', not_or, Bool.not_eq_false] at hcon
    obtain ⟨h1, h2⟩ := hcon
    rw [prioritizeLess_iff] at h1 h2
    omega
  have htrans : ∀ a b c : FileChange, (!prioritizeLess b a) = true →
      (!prioritizeLess c b) = true → (!prioritizeLess c a) = true := by
    intro a b c h1 h2
    simp only [Bool.not_eq_true'] at h1 h2 ⊢
    rw [prioritizeLess_false_iff] at h1 h2 ⊢
    push_neg at h1 h2 ⊢
    omega
  have hsorted : (prioritizeFiles s.files).Pairwise
      (fun a b => (!prioritizeLess b a) = true) :=
    insertionSortLe_pairwise _ htotal htrans s.files
  have htake : (processedFiles p s).Pairwise (fun a b => (!prioritizeLess b a) = true) :=
    hsorted.sublist (List.take_sublist _ _)
  have hkey : (processedFiles p s).Pairwise (fun a b =>
      getChangeTypePriority b.changeType < getChangeTypePriority a.changeType ∨
      (getChangeTypePriority a.changeType = getChangeTypePriority b.changeType ∧
       (getFileImportance b.path < getFileImportance a.path ∨
        (getFileImportance a.path = getFileImportance b.path ∧
         a.linesAdded + a.linesDeleted ≤ b.linesAdded + b.linesDeleted)))) := by
    refine htake.imp ?_
    intro a b h
    simp only [Bool.not_eq_true'] at h
    rw [prioritizeLess_false_iff] at h
    push_neg at h
    simp only [fileKey] at h
    omega
  refine ⟨?_, hkey, ?_⟩
  · show (List.take p.maxFiles (prioritizeFiles s.files)).length ≤ p.maxFiles
    exact List.length_take_le _ _
  · refine hkey.imp ?_
    intro a b h
    rintro ⟨ha, hb⟩
    have hpa : getChangeTypePriority a.changeType = 1 := by rw [ha]; decide
    have hpb : getChangeTypePriority b.changeType = 4 ∨
        getChangeTypePriority b.changeType = 3 := by
      rcases hb with hb | hb
      · exact Or.inl (by rw [hb]; decide)
      · exact Or.inr (by rw [hb]; decide)
    omega

/-- Accumulating non-marker lines: the section splitter appends each of them,
newline-terminated, to the current section. -/
theorem splitDiffLoop_noMarker :
    ∀ (rest ls' : List Str) (cur : Str),
      (∀ l ∈ rest, strStarts l (str "diff --git") = false) →
      splitDiffLoop (rest ++ ls') cur = splitDiffLoop ls' (cur ++ renderSection rest) := by
  intro rest
  induction rest with
  | nil => intro ls' cur _; simp [renderSection]
  | cons l rest ih =>
    intro ls' cur hnm
    have hl : strStarts l (str "diff --git") = false := hnm l (by simp)
    have hstep : splitDiffLoop ((l :: rest) ++ ls') cur
        = splitDiffLoop (rest ++ ls') (cur ++ l ++ ['\n']) := by
      simp only [List.cons_append, splitDiffLoop, List.append_eq]
      rw [if_neg (by simp [hl])]
    rw [hstep, ih ls' (cur ++ l ++ ['\n']) (fun l' hl' => hnm l' (by simp [hl']))]
    simp [renderSection]

/-- With a non-empty current section pending, the splitter emits it and then
one section per well-formed marker-led section of the remaining lines. -/
theorem splitDiffLoop_sections :
    ∀ (ss : List (List Str)) (cur : Str), cur ≠ [] →
      (∀ sec ∈ ss, WfSection sec) →
      splitDiffLoop ss.flatten cur = cur :: ss.map renderSection := by
  intro ss
  induction ss with
  | nil => intro cur hcur _; simp [splitDiffLoop, hcur]
  | cons sec ss ih =>
    intro cur hcur hwf
    obtain ⟨hne, hm, hrest⟩ := hwf sec (by simp)
    obtain ⟨m, rest, rfl⟩ : ∃ m rest, sec = m :: rest := by
      cases sec with
      | nil => exact absurd rfl hne
      | cons m rest => exact ⟨m, rest, rfl⟩
    simp only [List.headI] at hm
    simp only [List.tail_cons] at hrest
    have hstep : splitDiffLoop ((m :: rest) ++ ss.flatten) cur
        = cur :: splitDiffLoop (rest ++ ss.flatten) (m ++ ['\n']) := by
      simp only [List.cons_append, splitDiffLoop, List.append_eq]
      rw [if_pos ⟨hm, hcur⟩]
    rw [List.flatten_cons, hstep,
      splitDiffLoop_noMarker rest ss.flatten (m ++ ['\n']) hrest]
    have hren : (m ++ ['\n']) ++ renderSection rest = renderSection (m :: rest) := by
      simp [renderSection]
    rw [hren, ih (renderSection (m :: rest)) (by simp [renderSection])
      (fun s hs => hwf s (by simp [hs]))]
    simp

/-- `splitDiffByFile` on text whose scanner lines form well-formed sections
yields exactly those sections, newline-terminated. -/
theorem splitDiffByFile_sections (text : Str) (ss : List (List Str))
    (hscan : goScanLines text = ss.flatten)
    (hwf : ∀ sec ∈ ss, WfSection sec) :
    splitDiffByFile text = ss.map renderSection := by
  unfold splitDiffByFile
  rw [hscan]
  cases ss with
  | nil => simp [splitDiffLoop]
  | cons sec ss =>
    obtain ⟨hne, hm, hrest⟩ := hwf sec (by simp)
    obtain ⟨m, rest, rfl⟩ : ∃ m rest, sec = m :: rest := by
      cases sec with
      | nil => exact absurd rfl hne
      | cons m rest => exact ⟨m, rest, rfl⟩
    simp only [List.headI] at hm
    simp only [List.tail_cons] at hrest
    have hstep : splitDiffLoop ((m :: rest) ++ ss.flatten) []
        = splitDiffLoop (rest ++ ss.flatten) ([] ++ m ++ ['\n']) := by
      simp only [List.cons_append, splitDiffLoop, List.append_eq]
      rw [if_neg (by simp)]
    rw [List.flatten_cons, hstep,
      splitDiffLoop_noMarker rest ss.flatten ([] ++ m ++ ['\n']) hrest]
    have hren : ([] ++ m ++ ['\n']) ++ renderSection rest = renderSection (m :: rest) := by
      simp [renderSection]
    rw [hren, splitDiffLoop_sections ss (renderSection (m :: rest)) (by simp [renderSection])
      (fun s hs => hwf s (by simp [hs]))]
    simp

/-- Splitting on newlines after a newline-free line plus a newline peels off
exactly that line. -/
theorem splitOnNl_line_append :
    ∀ (l t : Str), (∀ c ∈ l, c ≠ '\n') →
      splitOnNl (l ++ '\n' :: t) = l :: splitOnNl t := by
  intro l
  induction l with
  | nil => intro t _; simp [splitOnNl]
  | cons c l ih =>
    intro t hnl
    have hc : c ≠ '\n' := hnl c (by simp)
    have hstep : splitOnNl ((c :: l) ++ '\n' :: t)
        = match splitOnNl (l ++ '\n' :: t) with
          | [] => [[c]]
          | x :: xs => (c :: x) :: xs := by
      simp only [List.cons_append, splitOnNl, List.append_eq]
      rw [if_neg hc]
    rw [hstep, ih t (fun c' hc' => hnl c' (by simp [hc']))]

/-- Splitting a rendered section on newlines recovers its lines plus one
trailing empty entry (for the final newline). -/
theorem splitOnNl_renderSection :
    ∀ (sec : List Str), (∀ l ∈ sec, ∀ c ∈ l, c ≠ '\n') →
      splitOnNl (renderSection sec) = sec ++ [[]] := by
  intro sec
  induction sec with
  | nil => intro _; simp [renderSection, splitOnNl]
  | cons l sec ih =>
    intro hnl
    have h1 : renderSection (l :: sec) = l ++ '\n' :: renderSection sec := by
      simp [renderSection]
    rw [h1, splitOnNl_line_append l (renderSection sec) (hnl l (by simp))]
    rw [ih (fun l' hl' => hnl l' (by simp [hl']))]
    simp

/-- Every rendered well-formed section parses: the split produces at least the
marker line plus the trailing empty entry, so the only failure path of
`parseFileSection` is unreachable. -/
theorem parseFileSection_render_isSome (sec : List Str)
    (hne : sec ≠ []) (hnl : ∀ l ∈ sec, ∀ c ∈ l, c ≠ '\n') :
    (parseFileSection (renderSection sec)).isSome := by
  have hlen : ¬ (sec ++ [([] : Str)]).length < 2 := by
    cases sec with
    | nil => exact absurd rfl hne
    | cons l sec => simp [List.length_append]
  simp only [parseFileSection, splitOnNl_renderSection sec hnl]
  rw [if_neg hlen]
  simp

/-- `filterMap` over a list where the function always succeeds keeps the
length. -/
theorem filterMap_length_isSome {α β : Type} (f : α → Option β) :
    ∀ l : List α, (∀ x ∈ l, (f x).isSome) → (l.filterMap f).length = l.length := by
  intro l
  induction l with
  | nil => simp
  | cons x xs ih =>
    intro h
    have hx := h x (by simp)
    obtain ⟨y, hy⟩ := Option.isSome_iff_exists.1 hx
    simp only [List.filterMap_cons, hy, List.length_cons]
    rw [ih (fun z hz => h z (by simp [hz]))]

/-- Claim C3: a diff text made of N well-formed `diff --git` sections parses
into exactly N `FileChange` records (no section aborts the parse), and the
summary totals equal the sums of the per-file added/deleted counts. -/
theorem parseDiff_section_count (text : Str) (ss : List (List Str))
    (hscan : goScanLines text = ss.flatten)
    (hwf : ∀ sec ∈ ss, WfSection sec)
    (hnl : ∀ sec ∈ ss, ∀ l ∈ sec, ∀ c ∈ l, c ≠ '\n') :
    (parseDiff text).files.length = ss.length ∧
    (parseDiff text).totalAdded = ((parseDiff text).files.map (·.linesAdded)).sum ∧
    (parseDiff text).totalDeleted = ((parseDiff text).files.map (·.linesDeleted)).sum := by
  refine ⟨?_, rfl, rfl⟩
  show ((splitDiffByFile text).filterMap parseFileSection).length = ss.length
  rw [splitDiffByFile_sections text ss hscan hwf]
  rw [filterMap_length_isSome parseFileSection (ss.map renderSection) ?_, List.length_map]
  intro x hx
  obtain ⟨sec, hsec, rfl⟩ := List.mem_map.1 hx
  exact parseFileSection_render_isSome sec (hwf sec hsec).1 (hnl sec hsec)

/-- Witness for C3: a concrete two-section diff text satisfies the hypotheses
and parses into exactly two file records. -/
theorem parseDiff_section_count_witness :
    goScanLines textC3 = ssC3.flatten ∧ (parseDiff textC3).files.length = ssC3.length :=
  ⟨by decide, (parseDiff_section_count textC3 ssC3 (by decide) (by decide) (by decide)).1⟩

/-- Claim C4 (code bug): a section whose header names the same file on both
sides (`diff --git a/config.go b/config.go`), with no file-mode lines, is
classified `renamed` with the old path recorded — the code compares the raw
header tokens `a/…` and `b/…`, which always differ, so the claimed `modified`
default is unreachable for real headers. -/
theorem parseFileSection_same_path_renamed :
    (parseFileSection secC4).map (fun fc => (fc.changeType, fc.oldPath, fc.path)) =
      some (ctRenamed, str "config.go", str "config.go") ∧
    ctRenamed ≠ ctModified := by decide

/-- Claim C6: a diff touching only `internal/ai/client.go` detects scope `ai`
(single-file rule, with the `$1` capture substituting the internal package
directory), and a three-file diff with two `config` files and one `ui` file
detects `config` (≥ 50% coverage). -/
theorem detectScope_scenarios :
    detectScope defaultScopeRules sumC6a = str "ai" ∧
    detectScopeForFileWithPriority defaultScopeRules (str "internal/ai/client.go") =
      (str "ai", 90) ∧
    detectScope defaultScopeRules sumC6b = str "config" := by decide

/-- Counterexample to C7: on `api/app.js` the default detector answers
(`ui`, 80), yet the matching rules are exactly the `ui` extension rule
(priority 80) and the `api` directory rule (priority 90) — the first matching
rule in *priority order* would give `api`, so rules are not consulted in
priority order under `NewDetector`'s unsorted default table. -/
theorem detectScope_priority_counterexample :
    detectScopeForFileWithPriority defaultScopeRules pathC7 = (str "ui", 80) ∧
    (defaultScopeRules.filter (fun r => r.matchesP pathC7)).map
      (fun r => (r.scope, r.priority)) = [(str "ui", 80), (str "api", 90)] ∧
    str "ui" ≠ str "api" := by decide

/-- Claim C7 (amended): the scope assigned to a file is that of the first
matching rule in the detector's stored rule-list order (which is priority
order only when the rule table was sorted, as `NewDetectorWithRules` does —
`NewDetector`'s default table is used in declaration order); a file matched by
no rule contributes no scope. -/
theorem detectScope_first_match_wins :
    (∀ (rules₁ : List ScopeRule) (r : ScopeRule) (rules₂ : List ScopeRule) (p : Str),
      (∀ r' ∈ rules₁, r'.matchesP p = false) → r.matchesP p = true →
      detectScopeForFileWithPriority (rules₁ ++ r :: rules₂) p =
        (applyRuleScope r p, r.priority)) ∧
    (∀ (rules : List ScopeRule) (p : Str),
      (∀ r' ∈ rules, r'.matchesP p = false) →
      detectScopeForFileWithPriority rules p = ([], 0)) ∧
    (∀ (rules : List ScopeRule) (p : Str) (counts prios : List (Str × Nat)),
      (∀ r' ∈ rules, r'.matchesP p = false) →
      scopeCountsLoop rules [p] counts prios = (counts, prios)) := by
  have hnone : ∀ (rules : List ScopeRule) (p : Str),
      (∀ r' ∈ rules, r'.matchesP p = false) →
      detectScopeForFileWithPriority rules p = ([], 0) := by
    intro rules
    induction rules with
    | nil => intro p _; rfl
    | cons r rs ih =>
      intro p h
      have hr : r.matchesP p = false := h r (by simp)
      simp only [detectScopeForFileWithPriority, hr]
      exact ih p (fun r' hr' => h r' (by simp [hr']))
  refine ⟨?_, hnone, ?_⟩
  · intro rules₁
    induction rules₁ with
    | nil =>
      intro r rules₂ p _ hr
      simp [detectScopeForFileWithPriority, hr]
    | cons r₀ rs ih =>
      intro r rules₂ p h1 hr
      have hr₀ : r₀.matchesP p = false := h1 r₀ (by simp)
      simp only [List.cons_append, detectScopeForFileWithPriority, hr₀]
      exact ih r rules₂ p (fun r' hr' => h1 r' (by simp [hr'])) hr
  · intro rules p counts prios h
    simp only [scopeCountsLoop, hnone rules p h, ne_eq, not_true_eq_false, if_false]

/-- Witness for the amended C7: no default rule matches the path `zzz`, so it
contributes no scope to the aggregation. -/
theorem detectScope_first_match_wins_witness :
    detectScopeForFileWithPriority defaultScopeRules (str "zzz") = ([], 0) ∧
    scopeCountsLoop defaultScopeRules [str "zzz"] [] [] = ([], []) :=
  ⟨detectScope_first_match_wins.2.1 defaultScopeRules (str "zzz") (by decide),
   detectScope_first_match_wins.2.2 defaultScopeRules (str "zzz") [] [] (by decide)⟩

/-- Claim C8: the added `.yaml` file replacing `config.Timeout = 30` by
`config.Timeout = 60` yields exactly one reconciled `ConfigChange` (parameter
`config.Timeout`, old `30`, new `60`) whose context is the timeout-specific
rationale, distinct from the generic one; and the change-pattern map flags
`likely_new_feature` because additions outnumber modifications. -/
theorem configChange_timeout_scenario :
    analyzeConfigChanges sumC8 =
      [{ file := str "config/app.yaml", parameter := str "config.Timeout",
         oldValue := str "30", newValue := str "60",
         context := analyzeTimeoutChange (str "config.Timeout") (str "30") (str "60") }] ∧
    analyzeTimeoutChange (str "config.Timeout") (str "30") (str "60") ≠
      analyzeGenericChange (str "30") (str "60") ∧
    lookupPat (analyzeChangePatterns sumC8) (str "likely_new_feature") =
      some (PatVal.b true) := by decide

/-- Every fuelled decimal digit is below 10. -/
theorem natDigitsRev_lt : ∀ (fuel n : Nat), ∀ d ∈ natDigitsRev fuel n, d < 10 := by
  intro fuel
  induction fuel with
  | zero => intro n d hd; simp [natDigitsRev] at hd
  | succ fuel ih =>
    intro n d hd
    by_cases h : n = 0
    · simp [natDigitsRev, h] at hd
    · simp only [natDigitsRev, if_neg h, List.mem_cons] at hd
      rcases hd with rfl | hd
      · omega
      · exact ih (n / 10) d hd

/-- With enough fuel, the fuelled digits reconstruct the number. -/
theorem natDigitsRev_ofDigits :
    ∀ (fuel n : Nat), n ≤ fuel → Nat.ofDigits 10 (natDigitsRev fuel n) = n := by
  intro fuel
  induction fuel with
  | zero => intro n h; interval_cases n; simp [natDigitsRev]
  | succ fuel ih =>
    intro n h
    by_cases h0 : n = 0
    · simp [natDigitsRev, h0]
    · simp only [natDigitsRev, if_neg h0, Nat.ofDigits_cons]
      have hrec : n / 10 ≤ fuel := by omega
      rw [ih (n / 10) hrec]
      omega

/-- A digit character is a digit for `isDigitGo` and has the expected code
point. -/
theorem digitChar_spec (d : Nat) (hd : d < 10) :
    isDigitGo (Char.ofNat (48 + d)) = true ∧ (Char.ofNat (48 + d)).toNat = 48 + d := by
  interval_cases d <;> exact ⟨by decide, by decide⟩

/-- All characters of a rendered natural number are digits. -/
theorem natToStr_digits (n : Nat) : ∀ c ∈ natToStr n, isDigitGo c = true := by
  intro c hc
  unfold natToStr at hc
  by_cases h : n = 0
  · simp [h] at hc
    rw [hc]
    decide
  · simp only [if_neg h, List.mem_reverse, List.mem_map] at hc
    obtain ⟨d, hd, rfl⟩ := hc
    exact (digitChar_spec d (natDigitsRev_lt n n d hd)).1

/-- A rendered natural number is never the empty string. -/
theorem natToStr_ne_nil (n : Nat) : natToStr n ≠ [] := by
  unfold natToStr
  by_cases h : n = 0
  · simp [h]
  · simp only [if_neg h]
    intro hcon
    have h1 : natDigitsRev n n = [] := by
      rcases hn : natDigitsRev n n with _ | ⟨d, ds⟩
      · rfl
      · rw [hn] at hcon; simp at hcon
    have h2 := natDigitsRev_ofDigits n n (le_refl n)
    rw [h1] at h2
    simp [Nat.ofDigits] at h2
    exact h (h2.symm)

/-- Appending one character multiplies the accumulated value by ten. -/
theorem digitsVal_append (l : Str) (c : Char) :
    digitsVal (l ++ [c]) = 10 * digitsVal l + (c.toNat - 48) := by
  simp [digitsVal, List.foldl_append]

/-- Reversed digit characters evaluate to the little-endian digit value. -/
theorem digitsVal_rev_map :
    ∀ ds : List Nat, (∀ d ∈ ds, d < 10) →
      digitsVal ((ds.map (fun d => Char.ofNat (48 + d))).reverse) = Nat.ofDigits 10 ds := by
  intro ds
  induction ds with
  | nil => intro _; simp [digitsVal, Nat.ofDigits]
  | cons d ds ih =>
    intro h
    have hd : d < 10 := h d (by simp)
    simp only [List.map_cons, List.reverse_cons, digitsVal_append, Nat.ofDigits_cons]
    rw [ih (fun d' hd' => h d' (by simp [hd']))]
    rw [(digitChar_spec d hd).2]
    omega

/-- Parsing the decimal rendering recovers the number. -/
theorem digitsVal_natToStr (n : Nat) : digitsVal (natToStr n) = n := by
  unfold natToStr
  by_cases h : n = 0
  · simp [h, digitsVal]
  · simp only [if_neg h]
    rw [digitsVal_rev_map (natDigitsRev n n) (natDigitsRev_lt n n)]
    exact natDigitsRev_ofDigits n n (le_refl n)

/-- `goAtoiDigits` inverts `natToStr` inside the 64-bit range. -/
theorem goAtoiDigits_natToStr (n : Nat) (h : n < 2 ^ 63) :
    goAtoiDigits (natToStr n) = some n := by
  unfold goAtoiDigits
  rw [digitsVal_natToStr]
  exact if_pos h

/-- `takeWhile` stops exactly at the end of a satisfying run when the next
character (if any) fails the predicate. -/
theorem takeWhile_run (p : Char → Bool) :
    ∀ (l r : Str), (∀ c ∈ l, p c = true) → (r = [] ∨ p r.headI = false) →
      (l ++ r).takeWhile p = l := by
  intro l
  induction l with
  | nil =>
    intro r _ hr
    rcases hr with rfl | hr
    · simp
    · cases r with
      | nil => simp
      | cons c cs => simp only [List.headI] at hr; simp [List.takeWhile, hr]
  | cons c l ih =>
    intro r hl hr
    have hc : p c = true := hl c (by simp)
    simp only [List.cons_append, List.takeWhile_cons, hc, if_true]
    rw [ih r (fun c' hc' => hl c' (by simp [hc'])) hr]

/-- `takeNum` over a digit run followed by a non-digit remainder splits at the
run boundary. -/
theorem takeNum_run (l r : Str) (hl : ∀ c ∈ l, isDigitGo c = true) (hne : l ≠ [])
    (hr : r = [] ∨ isDigitGo r.headI = false) :
    takeNum (l ++ r) = some (l, r) := by
  unfold takeNum
  rw [takeWhile_run isDigitGo l r hl hr]
  rw [if_neg hne]
  simp

/-- `takeAlpha` over a letter run followed by a non-letter remainder splits at
the run boundary. -/
theorem takeAlpha_run (l r : Str) (hl : ∀ c ∈ l, isAlphaGo c = true) (hne : l ≠ [])
    (hr : r = [] ∨ isAlphaGo r.headI = false) :
    takeAlpha (l ++ r) = some (l, r) := by
  unfold takeAlpha
  rw [takeWhile_run isAlphaGo l r hl hr]
  rw [if_neg hne]
  simp

/-- `verString` in parsing-friendly shape: three digit runs with dot
separators, then the pre-release tail. -/
theorem verString_shape (v : SemanticVersion) :
    verString v =
      natToStr v.major ++ '.' :: (natToStr v.minor ++ '.' :: (natToStr v.patch ++ preTail v)) := by
  unfold verString preTail
  by_cases h1 : v.preRelease ≠ [] <;> by_cases h2 : 0 < v.preNumber <;>
    simp [h1, h2, List.append_assoc]


/-- Stripping the `v` prefix from a digit-headed string is the identity. -/
theorem strDropPre_v_of_digit (s : Str) (hne : s ≠ []) (hd : isDigitGo s.headI = true) :
    strDropPre (str "v") s = s := by
  cases s with
  | nil => exact absurd rfl hne
  | cons c t =>
    have hc : isDigitGo c = true := hd
    have hvc : 'v' ≠ c := by
      intro he
      rw [← he] at hc
      exact absurd hc (by decide)
    have hpref : (str "v").isPrefixOf (c :: t) = false := by
      show List.isPrefixOf ['v'] (c :: t) = false
      simp [List.isPrefixOf]
      intro he
      exact absurd he hvc
    simp [strDropPre, hpref]

/-- The head of a concatenation with a non-empty left part. -/
theorem headI_append (l r : Str) (h : l ≠ []) : (l ++ r).headI = l.headI := by
  cases l with
  | nil => exact absurd rfl h
  | cons c t => simp [List.headI]

/-- Round-trip lemma: parsing the rendered form of any valid semantic version
reconstructs its (major, minor, patch, preRelease, preNumber) tuple. -/
theorem parseVersion_verString (v : SemanticVersion) (hv : ValidVersion v) :
    (parseVersion (verString v)).map verTuple = some (verTuple v) := by
  obtain ⟨hM, hm, hp, hpn, hpre⟩ := hv
  have hnotv : strDropPre (str "v") (verString v) = verString v := by
    refine strDropPre_v_of_digit (verString v) ?_ ?_
    · rw [verString_shape v]
      simp [natToStr_ne_nil]
    · rw [verString_shape v, headI_append _ _ (natToStr_ne_nil v.major)]
      have hmem : (natToStr v.major).headI ∈ natToStr v.major := by
        rcases hne : natToStr v.major with _ | ⟨c, t⟩
        · exact absurd hne (natToStr_ne_nil v.major)
        · simp [List.headI]
      exact natToStr_digits v.major _ hmem
  have h1 : takeNum (natToStr v.major ++
      '.' :: (natToStr v.minor ++ '.' :: (natToStr v.patch ++ preTail v))) =
      some (natToStr v.major, '.' :: (natToStr v.minor ++ '.' :: (natToStr v.patch ++ preTail v))) :=
    takeNum_run _ _ (natToStr_digits v.major) (natToStr_ne_nil v.major)
      (Or.inr (by show isDigitGo '.' = false; decide))
  have h2 : takeNum (natToStr v.minor ++ '.' :: (natToStr v.patch ++ preTail v)) =
      some (natToStr v.minor, '.' :: (natToStr v.patch ++ preTail v)) :=
    takeNum_run _ _ (natToStr_digits v.minor) (natToStr_ne_nil v.minor)
      (Or.inr (by show isDigitGo '.' = false; decide))
  have htail : preTail v = [] ∨ isDigitGo (preTail v).headI = false := by
    unfold preTail
    by_cases hep : v.preRelease ≠ [] <;> by_cases hnp : 0 < v.preNumber <;>
      simp [hep, hnp] <;> decide
  have h3 : takeNum (natToStr v.patch ++ preTail v) = some (natToStr v.patch, preTail v) :=
    takeNum_run _ _ (natToStr_digits v.patch) (natToStr_ne_nil v.patch) htail
  rw [verString_shape v] at hnotv ⊢
  rcases hpre with ⟨hpe, hp0⟩ | hother
  · have hpt : preTail v = [] := by simp [preTail, hpe]
    rw [hpt] at hnotv h1 h2 h3 ⊢
    rw [List.append_nil] at hnotv h1 h2 h3 ⊢
    simp only [parseVersion, hnotv, h1, h2, h3, goAtoiDigits_natToStr v.major hM,
      goAtoiDigits_natToStr v.minor hm, goAtoiDigits_natToStr v.patch hp]
    simp [verTuple, hpe, hp0]
  · have halpha : ∀ c ∈ v.preRelease, isAlphaGo c = true := by
      rcases hother with h | h | h <;> rw [h] <;> decide
    have hpne : v.preRelease ≠ [] := by
      rcases hother with h | h | h <;> rw [h] <;> decide
    by_cases hnp : 0 < v.preNumber
    · have hpt : preTail v = '-' :: (v.preRelease ++ '.' :: natToStr v.preNumber) := by
        simp [preTail, hpne, hnp]
      have h4 : takeAlpha (v.preRelease ++ '.' :: natToStr v.preNumber) =
          some (v.preRelease, '.' :: natToStr v.preNumber) :=
        takeAlpha_run _ _ halpha hpne (Or.inr (by show isAlphaGo '.' = false; decide))
      have h5 : takeNum (natToStr v.preNumber ++ []) = some (natToStr v.preNumber, []) :=
        takeNum_run _ _ (natToStr_digits v.preNumber) (natToStr_ne_nil v.preNumber) (Or.inl rfl)
      rw [List.append_nil] at h5
      rw [hpt] at hnotv h1 h2 h3 ⊢
      simp only [parseVersion, hnotv, h1, h2, h3, goAtoiDigits_natToStr v.major hM,
        goAtoiDigits_natToStr v.minor hm, goAtoiDigits_natToStr v.patch hp, h4, h5]
      simp [verTuple, goAtoiDigits_natToStr v.preNumber hpn]
    · have hpt : preTail v = '-' :: v.preRelease := by
        simp [preTail, hpne, hnp]
      have h4 : takeAlpha (v.preRelease ++ ([] : Str)) = some (v.preRelease, []) :=
        takeAlpha_run _ _ halpha hpne (Or.inl rfl)
      rw [List.append_nil] at h4
      have hpt' : preTail v = '-' :: (v.preRelease ++ []) := by
        rw [List.append_nil]; exact hpt
      rw [hpt] at hnotv h1 h2 h3 ⊢
      simp only [parseVersion, hnotv, h1, h2, h3, goAtoiDigits_natToStr v.major hM,
        goAtoiDigits_natToStr v.minor hm, goAtoiDigits_natToStr v.patch hp, h4]
      simp [verTuple]
      omega


/-- A valid version is a release exactly when its effective rank is 4. -/
theorem rank4_eq_four_iff (v : SemanticVersion) (hv : ValidVersion v) :
    v.preRelease = [] ↔ rank4 v = 4 := by
  obtain ⟨_, _, _, _, hpre⟩ := hv
  constructor
  · intro h; simp [rank4, h]
  · intro h
    rcases hpre with ⟨h0, _⟩ | hh | hh | hh
    · exact h0
    · exfalso; simp only [rank4, hh] at h; exact absurd h (by decide)
    · exfalso; simp only [rank4, hh] at h; exact absurd h (by decide)
    · exfalso; simp only [rank4, hh] at h; exact absurd h (by decide)

/-- Effective ranks of valid versions lie between 1 and 4. -/
theorem rank4_bounds (v : SemanticVersion) (hv : ValidVersion v) :
    1 ≤ rank4 v ∧ rank4 v ≤ 4 := by
  obtain ⟨_, _, _, _, hpre⟩ := hv
  rcases hpre with ⟨h0, _⟩ | hh | hh | hh
  · simp only [rank4, h0]; decide
  · simp only [rank4, hh]; decide
  · simp only [rank4, hh]; decide
  · simp only [rank4, hh]; decide

/-- A valid release carries pre-release number 0. -/
theorem preNumber_zero (v : SemanticVersion) (hv : ValidVersion v)
    (h : v.preRelease = []) : v.preNumber = 0 := by
  obtain ⟨_, _, _, _, hpre⟩ := hv
  rcases hpre with ⟨_, h0⟩ | hh | hh | hh
  · exact h0
  · rw [hh] at h; exact absurd h (by decide)
  · rw [hh] at h; exact absurd h (by decide)
  · rw [hh] at h; exact absurd h (by decide)

/-- On a pre-release, the effective rank is the tag rank. -/
theorem rank4_of_nonempty (v : SemanticVersion) (h : v.preRelease ≠ []) :
    rank4 v = preRank v.preRelease := by
  simp [rank4, h]

/-- Between valid pre-releases, equal tags and equal effective ranks
coincide. -/
theorem rank4_eq_iff_pre_eq (v1 v2 : SemanticVersion)
    (h1 : ValidVersion v1) (h2 : ValidVersion v2)
    (hn1 : v1.preRelease ≠ []) (hn2 : v2.preRelease ≠ []) :
    v1.preRelease = v2.preRelease ↔ rank4 v1 = rank4 v2 := by
  obtain ⟨_, _, _, _, hpre1⟩ := h1
  obtain ⟨_, _, _, _, hpre2⟩ := h2
  constructor
  · intro h; simp [rank4, h]
  · intro h
    rcases hpre1 with ⟨h0, _⟩ | hh1 | hh1 | hh1
    · exact absurd h0 hn1
    all_goals rcases hpre2 with ⟨h0', _⟩ | hh2 | hh2 | hh2
    all_goals first
      | exact absurd h0' hn2
      | exact hh1.trans hh2.symm
      | (exfalso; simp only [rank4, hh1, hh2] at h; exact absurd h (by decide))

/-- `isVersionNewer` on valid versions is exactly the strict lexicographic
order on `verKey`. -/
theorem isVersionNewer_iff_keyLt (v1 v2 : SemanticVersion)
    (h1 : ValidVersion v1) (h2 : ValidVersion v2) :
    isVersionNewer v1 v2 = true ↔ keyLt (verKey v2) (verKey v1) := by
  have g1 := rank4_eq_four_iff v1 h1
  have g2 := rank4_eq_four_iff v2 h2
  have b1 := rank4_bounds v1 h1
  have b2 := rank4_bounds v2 h2
  unfold isVersionNewer
  split_ifs with hM hm hp c4 c5 c6 c7
  · simp only [keyLt, verKey, decide_eq_true_eq]; omega
  · simp only [keyLt, verKey, decide_eq_true_eq]; omega
  · simp only [keyLt, verKey, decide_eq_true_eq]; omega
  · have f1 : rank4 v1 = 4 := g1.1 c4.1
    have f2 : rank4 v2 ≠ 4 := fun h => c4.2 (g2.2 h)
    simp only [keyLt, verKey]
    constructor
    · intro _; omega
    · intro _; trivial
  · have f1 : rank4 v2 = 4 := g2.1 c5.2
    have f2 : rank4 v1 ≠ 4 := fun h => c5.1 (g1.2 h)
    simp only [keyLt, verKey]
    constructor
    · intro h; exact absurd h (by decide)
    · intro h; exfalso; omega
  · have f1 : rank4 v1 = preRank v1.preRelease := rank4_of_nonempty v1 c6.1
    have f2 : rank4 v2 = preRank v2.preRelease := rank4_of_nonempty v2 c6.2
    have f3 : rank4 v1 ≠ rank4 v2 :=
      fun h => c7 ((rank4_eq_iff_pre_eq v1 v2 h1 h2 c6.1 c6.2).2 h)
    simp only [keyLt, verKey, decide_eq_true_eq]
    omega
  · have f3 : rank4 v1 = rank4 v2 := by
      have hpp : v1.preRelease = v2.preRelease := by
        by_contra hne
        exact c7 hne
      simp [rank4, hpp]
    simp only [keyLt, verKey, decide_eq_true_eq]
    omega
  · have hp1 : v1.preRelease = [] := by
      by_cases h : v1.preRelease = []
      · exact h
      · by_cases h' : v2.preRelease = []
        · exact absurd ⟨h, h'⟩ c5
        · exact absurd ⟨h, h'⟩ c6
    have hp2 : v2.preRelease = [] := by
      by_cases h' : v2.preRelease = []
      · exact h'
      · exact absurd ⟨hp1, h'⟩ c4
    have f1 : rank4 v1 = 4 := g1.1 hp1
    have f2 : rank4 v2 = 4 := g2.1 hp2
    have f3 := preNumber_zero v1 h1 hp1
    have f4 := preNumber_zero v2 h2 hp2
    simp only [keyLt, verKey]
    constructor
    · intro h; exact absurd h (by decide)
    · intro h; exfalso; omega
/-- The specification-stated comparison on valid versions is the same
lexicographic order on `verKey`. -/
theorem specNewer_iff_keyLt (v1 v2 : SemanticVersion)
    (h1 : ValidVersion v1) (h2 : ValidVersion v2) :
    specNewer v1 v2 ↔ keyLt (verKey v2) (verKey v1) := by
  have g1 := rank4_eq_four_iff v1 h1
  have g2 := rank4_eq_four_iff v2 h2
  have b1 := rank4_bounds v1 h1
  have b2 := rank4_bounds v2 h2
  unfold specNewer
  by_cases d1 : v1.preRelease = [] <;> by_cases d2 : v2.preRelease = []
  · have f1 : rank4 v1 = 4 := g1.1 d1
    have f2 : rank4 v2 = 4 := g2.1 d2
    have f3 := preNumber_zero v1 h1 d1
    have f4 := preNumber_zero v2 h2 d2
    simp only [keyLt, verKey, ne_eq, d1, d2, not_true_eq_false, not_false_iff, and_false,
      false_and, and_true, true_and, false_or, or_false]
    omega
  · have f1 : rank4 v1 = 4 := g1.1 d1
    have f2 : rank4 v2 ≠ 4 := fun h => d2 (g2.2 h)
    simp only [keyLt, verKey, ne_eq, d1, d2, not_true_eq_false, not_false_iff, and_false,
      false_and, and_true, true_and, false_or, or_false]
    omega
  · have f1 : rank4 v2 = 4 := g2.1 d2
    have f2 : rank4 v1 ≠ 4 := fun h => d1 (g1.2 h)
    simp only [keyLt, verKey, ne_eq, d1, d2, not_true_eq_false, not_false_iff, and_false,
      false_and, and_true, true_and, false_or, or_false]
    omega
  · have f1 : rank4 v1 = preRank v1.preRelease := rank4_of_nonempty v1 d1
    have f2 : rank4 v2 = preRank v2.preRelease := rank4_of_nonempty v2 d2
    by_cases d3 : v1.preRelease = v2.preRelease
    · have f3 : rank4 v1 = rank4 v2 := by simp [rank4, d3]
      have f4 : preRank v1.preRelease = preRank v2.preRelease := by rw [d3]
      simp only [keyLt, verKey, ne_eq, d1, d2, d3, not_true_eq_false, not_false_iff,
        and_false, false_and, and_true, true_and, false_or, or_false]
      omega
    · have f3 : rank4 v1 ≠ rank4 v2 :=
        fun h => d3 ((rank4_eq_iff_pre_eq v1 v2 h1 h2 d1 d2).2 h)
      simp only [keyLt, verKey, ne_eq, d1, d2, d3, not_true_eq_false, not_false_iff,
        and_false, false_and, and_true, true_and, false_or, or_false]
      omega

/-- Claim C5: `ParseVersion` applied to a valid version's `String()` form
reconstructs its component tuple, `isVersionNewer` agrees with the
specification's comparison (major, minor, patch numerically; release above
pre-release; `alpha < beta < rc`, then the pre-release number), and it is a
strict total order on valid versions up to tuple equality: irreflexive,
asymmetric, trichotomous and transitive. -/
theorem semver_roundtrip_order :
    (∀ v : SemanticVersion, ValidVersion v →
      (parseVersion (verString v)).map verTuple = some (verTuple v)) ∧
    (∀ v1 v2 : SemanticVersion, ValidVersion v1 → ValidVersion v2 →
      (isVersionNewer v1 v2 = true ↔ specNewer v1 v2)) ∧
    (∀ v : SemanticVersion, ValidVersion v → isVersionNewer v v = false) ∧
    (∀ v1 v2 : SemanticVersion, ValidVersion v1 → ValidVersion v2 →
      ¬(isVersionNewer v1 v2 = true ∧ isVersionNewer v2 v1 = true)) ∧
    (∀ v1 v2 : SemanticVersion, ValidVersion v1 → ValidVersion v2 →
      isVersionNewer v1 v2 = true ∨ isVersionNewer v2 v1 = true ∨ verTuple v1 = verTuple v2) ∧
    (∀ v1 v2 v3 : SemanticVersion, ValidVersion v1 → ValidVersion v2 → ValidVersion v3 →
      isVersionNewer v1 v2 = true → isVersionNewer v2 v3 = true →
      isVersionNewer v1 v3 = true) := by
  refine ⟨parseVersion_verString, ?_, ?_, ?_, ?_, ?_⟩
  · intro v1 v2 h1 h2
    rw [isVersionNewer_iff_keyLt v1 v2 h1 h2, specNewer_iff_keyLt v1 v2 h1 h2]
  · intro v hv
    cases hb : isVersionNewer v v
    · rfl
    · have := (isVersionNewer_iff_keyLt v v hv hv).1 hb
      exfalso
      unfold keyLt at this
      omega
  · intro v1 v2 h1 h2 ⟨ha, hb⟩
    have k1 := (isVersionNewer_iff_keyLt v1 v2 h1 h2).1 ha
    have k2 := (isVersionNewer_iff_keyLt v2 v1 h2 h1).1 hb
    unfold keyLt at k1 k2
    omega
  · intro v1 v2 h1 h2
    rcases hb1 : isVersionNewer v1 v2 with _ | _
    · rcases hb2 : isVersionNewer v2 v1 with _ | _
      · refine Or.inr (Or.inr ?_)
        have k1 : ¬ keyLt (verKey v2) (verKey v1) := fun hk => by
          have hcontra := (isVersionNewer_iff_keyLt v1 v2 h1 h2).2 hk
          rw [hb1] at hcontra
          exact Bool.false_ne_true hcontra
        have k2 : ¬ keyLt (verKey v1) (verKey v2) := fun hk => by
          have hcontra := (isVersionNewer_iff_keyLt v2 v1 h2 h1).2 hk
          rw [hb2] at hcontra
          exact Bool.false_ne_true hcontra
        simp only [keyLt, verKey] at k1 k2
        push_neg at k1 k2
        have hM : v1.major = v2.major := by omega
        have hm : v1.minor = v2.minor := by omega
        have hp : v1.patch = v2.patch := by omega
        have hr : rank4 v1 = rank4 v2 := by omega
        have hn : v1.preNumber = v2.preNumber := by omega
        have hpre : v1.preRelease = v2.preRelease := by
          by_cases he1 : v1.preRelease = []
          · have h4 : rank4 v1 = 4 := (rank4_eq_four_iff v1 h1).1 he1
            have h4' : rank4 v2 = 4 := by omega
            rw [he1, (rank4_eq_four_iff v2 h2).2 h4']
          · by_cases he2 : v2.preRelease = []
            · have h4 : rank4 v2 = 4 := (rank4_eq_four_iff v2 h2).1 he2
              have h4' : rank4 v1 = 4 := by omega
              exact absurd ((rank4_eq_four_iff v1 h1).2 h4') he1
            · exact (rank4_eq_iff_pre_eq v1 v2 h1 h2 he1 he2).2 hr
        simp [verTuple, hM, hm, hp, hpre, hn]
      · exact Or.inr (Or.inl rfl)
    · exact Or.inl rfl
  · intro v1 v2 v3 h1 h2 h3 ha hb
    rw [isVersionNewer_iff_keyLt v1 v2 h1 h2] at ha
    rw [isVersionNewer_iff_keyLt v2 v3 h2 h3] at hb
    rw [isVersionNewer_iff_keyLt v1 v3 h1 h3]
    unfold keyLt at ha hb ⊢
    omega

/-- Witness for C5: the round trip and ordering facts at the concrete versions
`1.22.3-rc.4` and `1.22.3`. -/
theorem semver_roundtrip_order_witness :
    ValidVersion verC5a ∧ ValidVersion verC5b ∧
    (parseVersion (verString verC5a)).map verTuple = some (verTuple verC5a) ∧
    (isVersionNewer verC5b verC5a = true ↔ specNewer verC5b verC5a) ∧
    isVersionNewer verC5a verC5a = false :=
  ⟨by decide, by decide,
   semver_roundtrip_order.1 verC5a (by decide),
   semver_roundtrip_order.2.1 verC5b verC5a (by decide) (by decide),
   semver_roundtrip_order.2.2.1 verC5a (by decide)⟩

/-- Claim C9 counterexample: under `NewValidator`'s default configuration the
subject `"Added new login flow."` gets only the trailing-period warning —
`EnforceImperative` defaults to `false`, so no non-imperative-mood warning is
produced, contrary to the claim. -/
theorem validator_default_imperative_counterexample :
    (validateCommitMessage (newValidator {}) msgC9).warnings.map (fun w => w.type) =
      [str "trailing_period"] ∧
    (newValidator {}).maxSubjectLength = 50 ∧
    (newValidator {}).enforceImperative = false := by
  decide

/-- Claim C9, corrected: under the default configuration `"Added new login
flow."` yields exactly the trailing-period warning; both the trailing-period
and non-imperative-mood warnings appear only under the generator service's
configuration, which enables `EnforceImperative`; and any 60-character subject
yields a subject-length error together with a truncation suggestion (the
default maximum subject length being 50). -/
theorem validator_warnings_corrected :
    (validateCommitMessage (newValidator {}) msgC9).warnings.map (fun w => w.type) =
      [str "trailing_period"] ∧
    (validateCommitMessage generatorValidatorConfig msgC9).warnings.map (fun w => w.type) =
      [str "trailing_period", str "imperative_mood"] ∧
    (∀ s : Str, s.length = 60 →
      (∃ e ∈ (validateSubjectLine (newValidator {}) s).1, e.type = str "subject_length") ∧
      (∃ g ∈ (validateSubjectLine (newValidator {}) s).2.2,
        g.type = str "subject_truncation")) := by
  refine ⟨by decide, by decide, ?_⟩
  intro s hs
  have h50 : (newValidator {}).maxSubjectLength < s.length := by
    rw [hs]; decide
  constructor
  · refine ⟨{ type := str "subject_length", msgKey := str "subject_too_long",
              severity := str "error" }, ?_, rfl⟩
    simp only [validateSubjectLine, if_pos h50]
    exact List.mem_append_left _ (List.mem_singleton.mpr rfl)
  · refine ⟨{ type := str "subject_truncation", msgKey := str "suggest_truncation",
              original := s,
              suggested := truncateSubject s (newValidator {}).maxSubjectLength }, ?_, rfl⟩
    simp only [validateSubjectLine, if_pos h50]
    exact List.mem_singleton.mpr rfl

/-- Witness for the corrected C9 statement at a concrete 60-character
subject. -/
theorem validator_warnings_corrected_witness :
    subjC9.length = 60 ∧
    ((∃ e ∈ (validateSubjectLine (newValidator {}) subjC9).1, e.type = str "subject_length") ∧
     (∃ g ∈ (validateSubjectLine (newValidator {}) subjC9).2.2,
       g.type = str "subject_truncation")) :=
  ⟨by decide, validator_warnings_corrected.2.2 subjC9 (by decide)⟩
